import Mathlib

/-!
Shallow embedding of the Fluxins expression-library core: tokenizer, Pratt
parser, tree evaluator, operator/precedence configuration and symbol context,
translated from the C++ sources (source/parser.cpp, source/evaluator.cpp,
source/fluxins.cpp and the public headers under include/fluxins/).

Modelling conventions, used uniformly below:
* the float value type is modelled as the exact rationals; every property
  verified here concerns control flow, token shapes, lookup order or table
  bookkeeping, never float rounding;
* C++ exceptions become Except / Option results; a mutator that can throw
  after having already modified the object returns the mutated state next to
  the error, mirroring the surviving C++ object;
* loops whose progress argument is not structural take an explicit fuel
  argument; every driver supplies fuel that dominates the loop bound, so the
  fuel-exhaustion branch is unreachable for the inputs the theorems use;
* C++ strings are modelled as List Char where the code indexes bytes and as
  String where only whole-value comparison happens (token values, symbols).
-/

namespace Fluxins

/-- Decidable equality for Except results, so that concrete runs of the
embedded functions can be checked by decide. -/
instance {ε α : Type} [DecidableEq ε] [DecidableEq α] :
    DecidableEq (Except ε α) := fun x y =>
  match x, y with
  | .ok a, .ok b =>
    if h : a = b then .isTrue (by rw [h])
    else .isFalse (fun hh => h (Except.ok.inj hh))
  | .error a, .error b =>
    if h : a = b then .isTrue (by rw [h])
    else .isFalse (fun hh => h (Except.error.inj hh))
  | .ok _, .error _ => .isFalse (fun hh => Except.noConfusion hh)
  | .error _, .ok _ => .isFalse (fun hh => Except.noConfusion hh)

/-- Location of a construct inside the expression text, error.hpp.
The C++ field named begin is called start here. -/
structure code_location where
  start : Nat := 0
  length : Nat := 0
  pointer : Nat := 0
deriving DecidableEq

/-- Token kind, parser.hpp. -/
inductive token_type where
  | identifier
  | number
  | symbol
  | punctuation
  | max
deriving DecidableEq

/-- A single token of the expression, parser.hpp. -/
structure token where
  type : token_type := .max
  value : String := ""
  location : code_location := {}
deriving DecidableEq

/-- A code buffer: the text, a diagnostics name and the precomputed line
table, code.hpp. The random name generation is irrelevant here and the name
defaults to the empty string. -/
structure code where
  expr : List Char
  name : String := ""
  lines : List (Nat × Nat) := []
deriving DecidableEq

/-- Character class tables of fluxins::tokenize, parser.cpp lines 23-33.
The apostrophe is written Char.ofNat 39. -/
def identifier_start : List Char :=
  "abcdefghijklmnopqrstuvwxyzABCDEFGHIJKLMNOPQRSTUVWXYZ_".data

/-- Digit characters, parser.cpp line 27. -/
def number_start : List Char := "0123456789".data

/-- Digit-separator characters (apostrophe and underscore), parser.cpp
line 28. -/
def number_separator : List Char := [Char.ofNat 39, '_']

/-- Identifier continuation characters, parser.cpp line 29. -/
def identifier_continue : List Char := identifier_start ++ number_start

/-- Number continuation characters, parser.cpp line 30: digits and the
decimal point only; the separator characters are NOT included. -/
def number_continue : List Char := number_start ++ ".".data

/-- Operator characters, parser.cpp line 32. -/
def operator_chars : List Char := "+-*/%^=!~&|<>?:[]".data

/-- Punctuation characters, parser.cpp line 33. -/
def punctuation_chars : List Char := "(),".data

/-- The characters std::isspace accepts in the default locale: space, tab,
newline, vertical tab, form feed, carriage return. -/
def is_space (c : Char) : Bool :=
  c == ' ' || c == '\t' || c == '\n' || c == '\x0b' || c == '\x0c' || c == '\r'

/-- End index of the maximal run of characters satisfying p that starts at
index i: the value the C++ scanning loops leave in index after
while (index < size and class.contains(expr[index])) index++. -/
def scan_end (p : Char → Bool) (s : List Char) (i : Nat) : Nat :=
  i + ((s.drop i).takeWhile p).length

/-- Substring of length len starting at byte i, std::string::substr. -/
def substr (s : List Char) (i len : Nat) : List Char :=
  (s.drop i).take len

/-- Error thrown by the tokenizer, error.hpp. Only the stored message and
location are modelled; the code reference and the rendered preview carried by
the C++ object are derived diagnostics data no claim inspects. -/
structure tokenizer_error where
  message : String
  location : code_location
deriving DecidableEq

/-- The decimal-point flags of the number branch, parser.cpp lines 67-82:
first component is found_decimal_point, second is
found_multiple_decimal_points. -/
def decimal_point_flags (raw : List Char) : Bool × Bool :=
  raw.foldl
    (fun st c => if c == '.' then (true, if st.1 then true else st.2) else st)
    (false, false)

/-- Main tokenizer loop, fluxins::tokenize, parser.cpp lines 35-185.
Structure of each iteration, in source order: identifier branch, number
branch (with the separator ends-with check, the separator removal and the
multiple-decimal-points check), operator branch, punctuation branch,
whitespace branch, invalid-character branch. The fuel argument only bounds
the iteration count; the driver supplies length + 1 which every input
respects because each iteration consumes at least one byte. -/
def tokenize_go (fuel : Nat) (s : List Char) (index : Nat) :
    Except tokenizer_error (List token) :=
  match fuel with
  | 0 => .ok []
  | fuel + 1 =>
    if h : index < s.length then
      let c := s.get ⟨index, h⟩
      if identifier_start.contains c then
        let e := scan_end (fun ch => identifier_continue.contains ch) s index
        let location : code_location := ⟨index, e - index, 0⟩
        let value := substr s index (e - index)
        (tokenize_go fuel s e).map
          (fun toks => ⟨.identifier, ⟨value⟩, location⟩ :: toks)
      else if number_start.contains c then
        let e := scan_end (fun ch => number_continue.contains ch) s index
        let location : code_location := ⟨index, e - index, 0⟩
        let raw := substr s index (e - index)
        if number_separator.any (fun sep => raw.getLast? == some sep) then
          .error ⟨"Number cannot end with separator characters", location⟩
        else
          let value := raw.filter (fun ch => !(number_separator.contains ch))
          if (decimal_point_flags raw).2 then
            .error ⟨"Number cannot contain multiple decimal points", location⟩
          else
            (tokenize_go fuel s e).map
              (fun toks => ⟨.number, ⟨value⟩, location⟩ :: toks)
      else if operator_chars.contains c then
        let e := scan_end (fun ch => operator_chars.contains ch) s index
        let location : code_location := ⟨index, e - index, 0⟩
        let value := substr s index (e - index)
        (tokenize_go fuel s e).map
          (fun toks => ⟨.symbol, ⟨value⟩, location⟩ :: toks)
      else if punctuation_chars.contains c then
        let location : code_location := ⟨index, 1, 0⟩
        (tokenize_go fuel s (index + 1)).map
          (fun toks => ⟨.punctuation, ⟨[c]⟩, location⟩ :: toks)
      else if is_space c then
        tokenize_go fuel s (index + 1)
      else
        .error ⟨"Invalid character", ⟨index, 1, 0⟩⟩
    else
      .ok []

/-- fluxins::tokenize, parser.cpp line 19. -/
def tokenize (c : code) : Except tokenizer_error (List token) :=
  tokenize_go (c.expr.length + 1) c.expr 0

/-- First newline index at or after b, or the text length when there is
none: std::string::find of a newline with npos mapped to size, as consumed by
split_lines, fluxins.cpp line 52. Faithful for b up to the length, the only
values the loop produces. -/
def find_newline (s : List Char) (b : Nat) : Nat :=
  b + ((s.drop b).takeWhile (fun c => !(c == '\n'))).length

/-- Loop of fluxins::code::split_lines, fluxins.cpp lines 44-62. The guard
reads the previous iteration's end value; fuel dominates the iteration count
(the driver passes length + 1 and begin grows strictly). -/
def split_lines_go (fuel : Nat) (s : List Char) (end_prev b : Nat) :
    List (Nat × Nat) :=
  match fuel with
  | 0 => []
  | fuel + 1 =>
    if end_prev < s.length then
      let e := find_newline s b
      (b, e - b) :: split_lines_go fuel s e (e + 1)
    else []

/-- fluxins::code::split_lines, fluxins.cpp line 44: begin and end both
start at zero. -/
def split_lines (s : List Char) : List (Nat × Nat) :=
  split_lines_go (s.length + 1) s 0 0

/-- The code constructor that stores the text and computes the line table,
code.hpp. -/
def mk_code (s : List Char) : code :=
  { expr := s, name := "", lines := split_lines s }

/-- Loop of fluxins::code::get_line_col, fluxins.cpp lines 66-73: first line
whose half-open span contains pos wins; i is the number of lines already
passed. -/
def get_line_col_go (lines : List (Nat × Nat)) (i pos : Nat) :
    Option (Nat × Nat) :=
  match lines with
  | [] => none
  | (b, len) :: rest =>
    if b ≤ pos ∧ pos < b + len then some (i + 1, pos - b)
    else get_line_col_go rest (i + 1) pos

/-- fluxins::code::get_line_col, fluxins.cpp line 64. The result is the
1-based line and 0-based column; none models the std::out_of_range throw at
line 75. -/
def get_line_col (c : code) (pos : Nat) : Option (Nat × Nat) :=
  get_line_col_go c.lines 0 pos

/-- Associativity of a binary operator, config.hpp; max is the invalid
sentinel default. -/
inductive associativity where
  | left
  | right
  | max
deriving DecidableEq

/-- Evaluation-time error, the exceptions operator/function callables and
the evaluator can raise (error.hpp): an unresolved reference carrying the
symbol and the kind string, a generic code error, an arity error, plus the
fuel-exhaustion marker of the embedding (unreachable when the supplied fuel
exceeds the tree depth). -/
inductive eval_err where
  | unresolved_reference (symbol kind : String) (location : code_location)
  | generic (message : String) (location : code_location)
  | invalid_arity (function : String) (args_count arity : Nat)
      (location : code_location)
  | out_of_fuel
deriving DecidableEq

/-- Unary operator record, config.hpp. The operate callable receives the
operator occurrence location and the operand. -/
structure unary_operator where
  symbol : String
  operate : code_location → ℚ → Except eval_err ℚ

/-- Binary operator record, config.hpp. -/
structure binary_operator where
  symbol : String
  assoc : associativity := .max
  operate : code_location → ℚ → ℚ → Except eval_err ℚ

/-- Parser and evaluator configuration, config.hpp: the three operator
groups and the precedence table. Each precedence row is a list of indices
into binary_operators, highest precedence first. -/
structure config where
  unary_prefix_operators : List unary_operator := []
  unary_suffix_operators : List unary_operator := []
  binary_operators : List binary_operator := []
  binary_op_precedence : List (List Nat) := []

/-- Exception kinds thrown by the configuration mutators, fluxins.cpp
(std::invalid_argument, std::logic_error, std::out_of_range). Only the
exception type is modelled; the message text of these host-error exceptions
is inspected by no claim. -/
inductive cfg_err where
  | invalid_argument
  | logic_error
  | out_of_range
deriving DecidableEq

/-- The (size_t)-1 sentinel the C++ code uses for a missing index. -/
def size_t_max : Nat := 2 ^ 64 - 1

/-- Index of the first unary operator with the given symbol: the find_if
plus distance idiom of fluxins.cpp lines 127-137. The C++ (size_t)-1 miss
sentinel is modelled as none. -/
def find_unary_op (l : List unary_operator) (symbol : String) : Option Nat :=
  l.findIdx? (fun op => op.symbol == symbol)

/-- Index of the first binary operator with the given symbol, fluxins.cpp
lines 228-238; the (size_t)-1 miss sentinel is modelled as none. -/
def find_bop_idx (l : List binary_operator) (symbol : String) : Option Nat :=
  l.findIdx? (fun op => op.symbol == symbol)

/-- fluxins::config::unary_prefix_op_exists, fluxins.cpp line 139. -/
def config.unary_prefix_op_exists (cfg : config) (symbol : String) : Bool :=
  (find_unary_op cfg.unary_prefix_operators symbol).isSome

/-- fluxins::config::unary_suffix_op_exists, fluxins.cpp line 187. -/
def config.unary_suffix_op_exists (cfg : config) (symbol : String) : Bool :=
  (find_unary_op cfg.unary_suffix_operators symbol).isSome

/-- fluxins::config::binary_op_exists, fluxins.cpp line 240. -/
def config.binary_op_exists (cfg : config) (symbol : String) : Bool :=
  (find_bop_idx cfg.binary_operators symbol).isSome

/-- First unary prefix operator whose symbol matches: the lookup behind
fluxins::config::get_unary_prefix_op, fluxins.cpp line 144 (the evaluator
only calls it behind the existence guard, so the throw is never taken
there). -/
def config.get_unary_prefix_op (cfg : config) (symbol : String) :
    Option unary_operator :=
  cfg.unary_prefix_operators.find? (fun op => op.symbol == symbol)

/-- fluxins::config::get_unary_suffix_op lookup, fluxins.cpp line 192. -/
def config.get_unary_suffix_op (cfg : config) (symbol : String) :
    Option unary_operator :=
  cfg.unary_suffix_operators.find? (fun op => op.symbol == symbol)

/-- fluxins::config::get_binary_op lookup, fluxins.cpp line 245. -/
def config.get_binary_op (cfg : config) (symbol : String) :
    Option binary_operator :=
  cfg.binary_operators.find? (fun op => op.symbol == symbol)

/-- fluxins::config::add_unary_prefix_op, fluxins.cpp lines 106-114.
Mutators return the resulting state next to the raised exception (if any);
the C++ object survives a throw with whatever mutation had happened, and for
the add/remove operations the throw happens before any mutation. -/
def config.add_unary_prefix_op (cfg : config) (op : unary_operator) :
    config × Option cfg_err :=
  if cfg.unary_prefix_op_exists op.symbol then (cfg, some .logic_error)
  else
    ({ cfg with unary_prefix_operators := cfg.unary_prefix_operators ++ [op] },
      none)

/-- fluxins::config::remove_unary_prefix_op, fluxins.cpp lines 116-125. -/
def config.remove_unary_prefix_op (cfg : config) (symbol : String) :
    config × Option cfg_err :=
  match find_unary_op cfg.unary_prefix_operators symbol with
  | none => (cfg, some .invalid_argument)
  | some index =>
    ({ cfg with
        unary_prefix_operators := cfg.unary_prefix_operators.eraseIdx index },
      none)

/-- fluxins::config::add_unary_suffix_op, fluxins.cpp lines 154-162. -/
def config.add_unary_suffix_op (cfg : config) (op : unary_operator) :
    config × Option cfg_err :=
  if cfg.unary_suffix_op_exists op.symbol then (cfg, some .logic_error)
  else
    ({ cfg with unary_suffix_operators := cfg.unary_suffix_operators ++ [op] },
      none)

/-- fluxins::config::remove_unary_suffix_op, fluxins.cpp lines 164-173. -/
def config.remove_unary_suffix_op (cfg : config) (symbol : String) :
    config × Option cfg_err :=
  match find_unary_op cfg.unary_suffix_operators symbol with
  | none => (cfg, some .invalid_argument)
  | some index =>
    ({ cfg with
        unary_suffix_operators := cfg.unary_suffix_operators.eraseIdx index },
      none)

/-- fluxins::config::add_binary_op, fluxins.cpp lines 202-215: duplicate
symbols and the associativity::max sentinel are rejected, then the operator
is appended. -/
def config.add_binary_op (cfg : config) (op : binary_operator) :
    config × Option cfg_err :=
  if cfg.binary_op_exists op.symbol then (cfg, some .logic_error)
  else if op.assoc == associativity.max then (cfg, some .logic_error)
  else ({ cfg with binary_operators := cfg.binary_operators ++ [op] }, none)

/-- fluxins::config::remove_binary_op, fluxins.cpp lines 217-226: the
operator is erased from binary_operators; the precedence table is NOT
touched. -/
def config.remove_binary_op (cfg : config) (symbol : String) :
    config × Option cfg_err :=
  match find_bop_idx cfg.binary_operators symbol with
  | none => (cfg, some .invalid_argument)
  | some index =>
    ({ cfg with binary_operators := cfg.binary_operators.eraseIdx index },
      none)

/-- The row scan shared by assign_precedence (fluxins.cpp lines 269-296) and
unassign_precedence (lines 336-352): find the first row containing the
operator index, erase the first occurrence from it, and drop the row when it
became empty. Result: none when no row contains the index; otherwise the
updated row list together with some i when the row at absolute position i
was deleted (the information the precedence adjustment at line 289 needs),
none when the row survived. The i argument is the loop counter. -/
def erase_row_entry (rows : List (List Nat)) (index i : Nat) :
    Option (List (List Nat) × Option Nat) :=
  match rows with
  | [] => none
  | row :: rest =>
    if row.contains index then
      let row2 := row.erase index
      if row2.isEmpty then some (rest, some i) else some (row2 :: rest, none)
    else
      match erase_row_entry rest index (i + 1) with
      | none => none
      | some (rest2, removed) => some (row :: rest2, removed)

/-- Steps at fluxins.cpp lines 309-314: bounds check, then append the
operator index to the target row. -/
def assign_append (cfg : config) (index precedence : Nat) :
    config × Option cfg_err :=
  if precedence ≥ cfg.binary_op_precedence.length then (cfg, some .out_of_range)
  else
    let row := cfg.binary_op_precedence.getD precedence []
    ({ cfg with
        binary_op_precedence :=
          cfg.binary_op_precedence.set precedence (row ++ [index]) },
      none)

/-- Steps at fluxins.cpp lines 298-314: optional insertion of a fresh empty
row at the target position (shifting later rows down), then the append. -/
def assign_finish (cfg : config) (index precedence : Nat) (insert_row : Bool) :
    config × Option cfg_err :=
  if insert_row then
    if precedence > cfg.binary_op_precedence.length then
      (cfg, some .out_of_range)
    else
      assign_append
        { cfg with
            binary_op_precedence :=
              cfg.binary_op_precedence.insertIdx precedence [] }
        index precedence
  else assign_append cfg index precedence

/-- fluxins::config::assign_precedence, fluxins.cpp lines 255-315. When the
operator already sits in a row: without the override flag a logic_error is
raised before any mutation; with it the old entry is erased first and, when
that deleted a row before the target position, the target index is shifted
down by one. -/
def config.assign_precedence (cfg : config) (symbol : String)
    (precedence : Nat) (insert_row ov : Bool) : config × Option cfg_err :=
  match find_bop_idx cfg.binary_operators symbol with
  | none => (cfg, some .invalid_argument)
  | some index =>
    match erase_row_entry cfg.binary_op_precedence index 0 with
    | none => assign_finish cfg index precedence insert_row
    | some (rows2, removed) =>
      if ov then
        let precedence2 :=
          match removed with
          | some i => if i < precedence then precedence - 1 else precedence
          | none => precedence
        assign_finish { cfg with binary_op_precedence := rows2 } index
          precedence2 insert_row
      else (cfg, some .logic_error)

/-- The assign_precedence overload without an explicit level, fluxins.cpp
lines 317-323: the target is size() - (not insert_row). With an empty table
and insert_row false the C++ size_t value wraps to (size_t)-1 and the callee
raises out_of_range; the truncated Nat subtraction yields 0 there and the
callee raises the same out_of_range, so the observable result agrees. -/
def config.assign_precedence_lowest (cfg : config) (symbol : String)
    (insert_row ov : Bool) : config × Option cfg_err :=
  cfg.assign_precedence symbol
    (cfg.binary_op_precedence.length - (if insert_row then 0 else 1))
    insert_row ov

/-- fluxins::config::unassign_precedence, fluxins.cpp lines 325-353: a miss
on the operator list raises invalid_argument; a missing row entry is
silently ignored. -/
def config.unassign_precedence (cfg : config) (symbol : String) :
    config × Option cfg_err :=
  match find_bop_idx cfg.binary_operators symbol with
  | none => (cfg, some .invalid_argument)
  | some index =>
    match erase_row_entry cfg.binary_op_precedence index 0 with
    | none => (cfg, none)
    | some (rows2, _) =>
      ({ cfg with binary_op_precedence := rows2 }, none)

/-- Scan for the first precedence row containing the operator index,
the loop of fluxins::config::get_precedence, fluxins.cpp lines 366-374. -/
def find_row_containing (rows : List (List Nat)) (index i : Nat) :
    Option Nat :=
  match rows with
  | [] => none
  | row :: rest =>
    if row.contains index then some i
    else find_row_containing rest index (i + 1)

/-- fluxins::config::get_precedence, fluxins.cpp lines 355-377: an
unregistered symbol raises std::invalid_argument; a registered operator
without a row returns the (size_t)-1 sentinel as a normal value. -/
def config.get_precedence (cfg : config) (symbol : String) :
    Except cfg_err Nat :=
  match find_bop_idx cfg.binary_operators symbol with
  | none => .error .invalid_argument
  | some index =>
    match find_row_containing cfg.binary_op_precedence index 0 with
    | some i => .ok i
    | none => .ok size_t_max

/-- One public Config mutation, used to quantify over the mutation surface
of config.hpp section 4.6. -/
inductive config_mutation where
  | add_prefix_op (op : unary_operator)
  | remove_prefix_op (symbol : String)
  | add_suffix (op : unary_operator)
  | remove_suffix (symbol : String)
  | add_binary (op : binary_operator)
  | remove_binary (symbol : String)
  | assign (symbol : String) (precedence : Nat) (insert_row ov : Bool)
  | assign_lowest (symbol : String) (insert_row ov : Bool)
  | unassign (symbol : String)

/-- Dispatch a mutation to the corresponding config operation. -/
def apply_config_mutation (m : config_mutation) (cfg : config) :
    config × Option cfg_err :=
  match m with
  | .add_prefix_op op => cfg.add_unary_prefix_op op
  | .remove_prefix_op symbol => cfg.remove_unary_prefix_op symbol
  | .add_suffix op => cfg.add_unary_suffix_op op
  | .remove_suffix symbol => cfg.remove_unary_suffix_op symbol
  | .add_binary op => cfg.add_binary_op op
  | .remove_binary symbol => cfg.remove_binary_op symbol
  | .assign symbol precedence insert_row ov =>
    cfg.assign_precedence symbol precedence insert_row ov
  | .assign_lowest symbol insert_row ov =>
    cfg.assign_precedence_lowest symbol insert_row ov
  | .unassign symbol => cfg.unassign_precedence symbol

/-- Whether the mutation is a remove of a binary operator. -/
def config_mutation.is_remove_binary : config_mutation → Bool
  | .remove_binary _ => true
  | _ => false

/-- Invariant (a): operator symbols are unique within each of the three
operator groups. -/
def config.groups_nodup (cfg : config) : Prop :=
  (cfg.unary_prefix_operators.map (fun op => op.symbol)).Nodup ∧
    (cfg.unary_suffix_operators.map (fun op => op.symbol)).Nodup ∧
    (cfg.binary_operators.map (fun op => op.symbol)).Nodup

/-- Invariant (b): each binary-operator index appears at most once in the
whole precedence table, so in particular in at most one row. -/
def config.rows_nodup (cfg : config) : Prop :=
  cfg.binary_op_precedence.flatten.Nodup

/-- Every precedence entry indexes an existing binary operator. -/
def config.rows_in_range (cfg : config) : Prop :=
  ∀ idx ∈ cfg.binary_op_precedence.flatten,
    idx < cfg.binary_operators.length

/-- The operator a precedence entry denotes, identified by its symbol
(symbols are unique within the binary group under invariant (a)). -/
def config.denotes (cfg : config) (idx : Nat) : Option String :=
  (cfg.binary_operators.get? idx).map (fun op => op.symbol)

instance (cfg : config) : Decidable cfg.groups_nodup := by
  unfold config.groups_nodup
  infer_instance

instance (cfg : config) : Decidable cfg.rows_nodup := by
  unfold config.rows_nodup
  infer_instance

instance (cfg : config) : Decidable cfg.rows_in_range := by
  unfold config.rows_in_range
  infer_instance

/-- Tree node, parser.hpp: number, variable, function call, operator
(the Option shape of left/right encodes binary / prefix-unary /
suffix-unary / malformed) and conditional. -/
inductive ast_node where
  | number_ast (value : ℚ) (location : code_location)
  | variable_ast (name : String) (location : code_location)
  | function_ast (name : String) (args : List ast_node)
      (location : code_location)
  | operator_ast (symbol : String) (left right : Option ast_node)
      (location : code_location)
  | conditional_ast (condition true_value false_value : ast_node)
      (location : code_location)

/-- Function callable signature, context.hpp: receives the call-site
location and the evaluated arguments. -/
def fluxins_function : Type := code_location → List ℚ → Except eval_err ℚ

/-- Symbol context, context.hpp: variable map, function map and the list of
parent contexts, looked up depth-first in order. -/
inductive context where
  | mk (vars : List (String × ℚ))
      (fns : List (String × fluxins_function))
      (parents : List context)

/-- Lookup in an unordered_map modelled as an association list (the
contains-then-at idiom of fluxins.cpp lines 381-383). -/
def lookup_map {α : Type} (m : List (String × α)) (name : String) :
    Option α :=
  (m.find? (fun p => p.1 == name)).map (fun p => p.2)

mutual

/-- fluxins::context::resolve_variable, fluxins.cpp lines 379-395: own map
first, then the parents depth-first in order. The fuel bounds the chain
depth; none doubles as the miss result, as in the C++ optional. -/
def resolve_variable (fuel : Nat) (ctx : context) (name : String) :
    Option ℚ :=
  match fuel with
  | 0 => none
  | fuel + 1 =>
    match ctx with
    | .mk vars _ parents =>
      match lookup_map vars name with
      | some v => some v
      | none => resolve_variable_parents fuel parents name

/-- The parent loop of resolve_variable, fluxins.cpp lines 386-392. -/
def resolve_variable_parents (fuel : Nat) (parents : List context)
    (name : String) : Option ℚ :=
  match fuel with
  | 0 => none
  | fuel + 1 =>
    match parents with
    | [] => none
    | p :: rest =>
      match resolve_variable fuel p name with
      | some v => some v
      | none => resolve_variable_parents fuel rest name

end

mutual

/-- fluxins::context::resolve_function, fluxins.cpp lines 397-413. -/
def resolve_function (fuel : Nat) (ctx : context) (name : String) :
    Option fluxins_function :=
  match fuel with
  | 0 => none
  | fuel + 1 =>
    match ctx with
    | .mk _ fns parents =>
      match lookup_map fns name with
      | some f => some f
      | none => resolve_function_parents fuel parents name

/-- The parent loop of resolve_function, fluxins.cpp lines 404-410. -/
def resolve_function_parents (fuel : Nat) (parents : List context)
    (name : String) : Option fluxins_function :=
  match fuel with
  | 0 => none
  | fuel + 1 =>
    match parents with
    | [] => none
    | p :: rest =>
      match resolve_function fuel p name with
      | some f => some f
      | none => resolve_function_parents fuel rest name

end

/-- One observable callable invocation. The evaluator records an event at
exactly the points where the C++ evaluator hands control to a user-supplied
callable, so an event in the trace is what "the side effect fires" means. -/
inductive event where
  | fn_call (name : String) (args : List ℚ)
  | unary_call (symbol : String) (x : ℚ)
  | binary_call (symbol : String) (x y : ℚ)
deriving DecidableEq

mutual

/-- Tree evaluation, evaluator.cpp lines 20-132: the value together with
the trace of callable invocations, in the order they fire. Branch by
branch:
* number_ast returns the stored value (lines 20-26);
* variable_ast resolves in the context chain, miss raises
  unresolved_reference "variable" (lines 28-39);
* function_ast resolves the function FIRST (lines 46-56) and only then
  evaluates the arguments left-to-right (lines 58-62), then invokes the
  callable;
* operator_ast evaluates the left operand (0 when absent), then the right
  operand (lines 72-73), then dispatches on the operand shape; the
  suffix-shaped branch checks the suffix table but reports the kind string
  "unary prefix operator" exactly as evaluator.cpp line 93 does;
* conditional_ast evaluates the condition and then exactly the selected
  branch (lines 117-132). -/
def evaluate (fuel : Nat) (node : ast_node) (cfg : config) (ctx : context) :
    List event × Except eval_err ℚ :=
  match fuel with
  | 0 => ([], .error .out_of_fuel)
  | fuel + 1 =>
    match node with
    | .number_ast v _ => ([], .ok v)
    | .variable_ast name loc =>
      match resolve_variable fuel ctx name with
      | some v => ([], .ok v)
      | none => ([], .error (.unresolved_reference name "variable" loc))
    | .function_ast name args loc =>
      match resolve_function fuel ctx name with
      | none => ([], .error (.unresolved_reference name "function" loc))
      | some f =>
        match evaluate_args fuel args cfg ctx with
        | (t, .error e) => (t, .error e)
        | (t, .ok vals) => (t ++ [.fn_call name vals], f loc vals)
    | .operator_ast symbol left right loc =>
      match (match left with
             | some a => evaluate fuel a cfg ctx
             | none => ([], .ok 0)) with
      | (t1, .error e) => (t1, .error e)
      | (t1, .ok lv) =>
        match (match right with
               | some b => evaluate fuel b cfg ctx
               | none => ([], .ok 0)) with
        | (t2, .error e) => (t1 ++ t2, .error e)
        | (t2, .ok rv) =>
          match left, right with
          | some _, some _ =>
            match cfg.get_binary_op symbol with
            | none =>
              (t1 ++ t2,
                .error (.unresolved_reference symbol "binary operator" loc))
            | some op =>
              (t1 ++ t2 ++ [.binary_call symbol lv rv], op.operate loc lv rv)
          | some _, none =>
            match cfg.get_unary_suffix_op symbol with
            | none =>
              (t1 ++ t2,
                .error
                  (.unresolved_reference symbol "unary prefix operator" loc))
            | some op =>
              (t1 ++ t2 ++ [.unary_call symbol lv], op.operate loc lv)
          | none, some _ =>
            match cfg.get_unary_prefix_op symbol with
            | none =>
              (t1 ++ t2,
                .error
                  (.unresolved_reference symbol "unary prefix operator" loc))
            | some op =>
              (t1 ++ t2 ++ [.unary_call symbol rv], op.operate loc rv)
          | none, none =>
            (t1 ++ t2,
              .error (.generic "No operands for operator was specified" loc))
    | .conditional_ast c tv fv _ =>
      match evaluate fuel c cfg ctx with
      | (t, .error e) => (t, .error e)
      | (t, .ok v) =>
        if v ≠ 0 then
          let r := evaluate fuel tv cfg ctx
          (t ++ r.1, r.2)
        else
          let r := evaluate fuel fv cfg ctx
          (t ++ r.1, r.2)

/-- The argument loop of function_ast::evaluate, evaluator.cpp lines 58-62:
left-to-right, an exception aborts the remaining arguments. -/
def evaluate_args (fuel : Nat) (args : List ast_node) (cfg : config)
    (ctx : context) : List event × Except eval_err (List ℚ) :=
  match fuel with
  | 0 => ([], .error .out_of_fuel)
  | fuel + 1 =>
    match args with
    | [] => ([], .ok [])
    | a :: rest =>
      match evaluate fuel a cfg ctx with
      | (t, .error e) => (t, .error e)
      | (t, .ok v) =>
        match evaluate_args fuel rest cfg ctx with
        | (t2, .error e) => (t ++ t2, .error e)
        | (t2, .ok vs) => (t ++ t2, .ok (v :: vs))

end

/-- Parse-time error: the arguments fluxins::unexpected_token is thrown
with (message and offending token), plus the fuel-exhaustion marker of the
embedding. What the C++ exception object then stores is modelled separately
by mk_unexpected_token below. -/
inductive parse_err where
  | unexpected (message : String) (tok : token)
  | out_of_fuel
deriving DecidableEq

/-- The token at a position the C++ code indexes unchecked; out of range
(impossible on the paths the parser takes) yields the default token. Also
covers the tokens with pos - 1 accesses, where Nat truncation at pos = 0
stands in for the equally impossible C++ underflow. -/
def tok_at (tokens : List token) (pos : Nat) : token :=
  (tokens.get? pos).getD {}

/-- The idiom pos >= tokens.size() ? tokens[pos - 1] : tokens[pos] used for
error attribution throughout parser.cpp. -/
def prev_or_here (tokens : List token) (pos : Nat) : token :=
  if pos ≥ tokens.length then tok_at tokens (pos - 1) else tok_at tokens pos

/-- Value of a run of decimal digits. -/
def digits_value (l : List Char) : Nat :=
  l.foldl (fun a c => a * 10 + (c.toNat - 48)) 0

/-- std::stof restricted to the shapes a number token value can have
(digits with at most one decimal point), as an exact rational; the rounding
to float is irrelevant to every claim studied here. -/
def stof_lit (s : String) : ℚ :=
  let ds := s.data
  let ip := ds.takeWhile (fun c => !(c == '.'))
  let fp := (ds.dropWhile (fun c => !(c == '.'))).drop 1
  (digits_value ip : ℚ) + (digits_value fp : ℚ) / ((10 : ℚ) ^ fp.length)

/-- Stand-in record for the undefined behavior of indexing
binary_operators out of range: its empty symbol matches no symbol token
(symbol tokens are nonempty operator-character runs). -/
def default_bop : binary_operator := ⟨"", .max, fun _ _ _ => .ok 0⟩

/-- The binary operator a precedence entry resolves to when the parser or
evaluator indexes binary_operators[i]. -/
def bop_at (ops : List binary_operator) (i : Nat) : binary_operator :=
  (ops.get? i).getD default_bop

/-- The inner for loop of parse_binary_op, parser.cpp lines 442-450: walk
the precedence row in insertion order and return the first operator whose
symbol equals the symbol token. -/
def match_in_row (ops : List binary_operator) (row : List Nat) (tok : token) :
    Option binary_operator :=
  match row with
  | [] => none
  | i :: rest =>
    let op_info := bop_at ops i
    if tok.type = token_type.symbol ∧ tok.value = op_info.symbol then
      some op_info
    else match_in_row ops rest tok

/-- fluxins::parse_number, parser.cpp lines 278-297: consume one token,
require the number kind, convert with std::stof. -/
def parse_number (tokens : List token) (pos : Nat) :
    Except parse_err (ast_node × Nat) :=
  let tok := tok_at tokens pos
  if tok.type = token_type.number then
    .ok (.number_ast (stof_lit tok.value) tok.location, pos + 1)
  else .error (.unexpected "Expected number" tok)

/-- fluxins::parse_variable, parser.cpp lines 323-336: consume one token
unconditionally. -/
def parse_variable (tokens : List token) (pos : Nat) :
    Except parse_err (ast_node × Nat) :=
  let tok := tok_at tokens pos
  .ok (.variable_ast tok.value tok.location, pos + 1)

mutual

/-- fluxins::parse_primary, parser.cpp lines 190-276: optional prefix
operator (which recurses into another primary), otherwise the core
(number, identifier or parenthesis), then the suffix loop. The C++ throws
Unexpected end of expression at tokens[pos - 1] when the cursor is past the
stream. -/
def parse_primary (fuel : Nat) (tokens : List token) (cfg : config)
    (pos : Nat) : Except parse_err (ast_node × Nat) :=
  match fuel with
  | 0 => .error .out_of_fuel
  | fuel + 1 =>
    if pos ≥ tokens.length then
      .error
        (.unexpected "Unexpected end of expression" (tok_at tokens (pos - 1)))
    else
      let tok := tok_at tokens pos
      match
        (if tok.type = token_type.symbol then
          cfg.unary_prefix_operators.find? (fun op => tok.value == op.symbol)
        else none) with
      | some _ =>
        match parse_primary fuel tokens cfg (pos + 1) with
        | .error e => .error e
        | .ok (operand, pos2) =>
          parse_suffix_loop fuel tokens cfg
            (.operator_ast tok.value none (some operand) tok.location) pos2
      | none =>
        match
          (if tok.type = token_type.number then
            parse_number tokens pos
          else if tok.type = token_type.identifier then
            parse_identifier fuel tokens cfg pos
          else if tok.type = token_type.punctuation ∧ tok.value = "(" then
            parse_parenthesis fuel tokens cfg pos
          else
            .error
              (.unexpected "Expected number, identifier or punctuation"
                (prev_or_here tokens pos))) with
        | .error e => .error e
        | .ok (node, pos2) => parse_suffix_loop fuel tokens cfg node pos2
termination_by structural fuel

/-- The suffix loop of parse_primary, parser.cpp lines 253-274: while the
next token is a symbol naming a suffix operator, wrap the node. -/
def parse_suffix_loop (fuel : Nat) (tokens : List token) (cfg : config)
    (node : ast_node) (pos : Nat) : Except parse_err (ast_node × Nat) :=
  match fuel with
  | 0 => .error .out_of_fuel
  | fuel + 1 =>
    if pos < tokens.length then
      let tok := tok_at tokens pos
      if tok.type = token_type.symbol then
        match
          cfg.unary_suffix_operators.find? (fun op => tok.value == op.symbol)
          with
        | some _ =>
          parse_suffix_loop fuel tokens cfg
            (.operator_ast tok.value (some node) none tok.location) (pos + 1)
        | none => .ok (node, pos)
      else .ok (node, pos)
    else .ok (node, pos)
termination_by structural fuel

/-- fluxins::parse_identifier, parser.cpp lines 299-321: a function call
when the identifier is directly followed by an opening parenthesis,
otherwise a variable. -/
def parse_identifier (fuel : Nat) (tokens : List token) (cfg : config)
    (pos : Nat) : Except parse_err (ast_node × Nat) :=
  match fuel with
  | 0 => .error .out_of_fuel
  | fuel + 1 =>
    if (tok_at tokens pos).type ≠ token_type.identifier then
      .error (.unexpected "Expected identifier" (tok_at tokens pos))
    else if pos + 1 < tokens.length ∧
        (tok_at tokens (pos + 1)).type = token_type.punctuation ∧
        (tok_at tokens (pos + 1)).value = "(" then
      parse_function fuel tokens cfg pos
    else parse_variable tokens pos
termination_by structural fuel

/-- fluxins::parse_function, parser.cpp lines 338-391: function name,
opening parenthesis, empty argument list shortcut, else the argument loop.
The C++ message texts quote punctuation with apostrophes; the quoting is
dropped here. -/
def parse_function (fuel : Nat) (tokens : List token) (cfg : config)
    (pos : Nat) : Except parse_err (ast_node × Nat) :=
  match fuel with
  | 0 => .error .out_of_fuel
  | fuel + 1 =>
    let name := (tok_at tokens pos).value
    let loc := (tok_at tokens pos).location
    let pos2 := pos + 1
    if pos2 ≥ tokens.length ∨
        (tok_at tokens pos2).type ≠ token_type.punctuation ∨
        (tok_at tokens pos2).value ≠ "(" then
      .error
        (.unexpected "Expected ( after function name" (prev_or_here tokens pos2))
    else
      let pos3 := pos2 + 1
      if pos3 < tokens.length ∧
          (tok_at tokens pos3).type = token_type.punctuation ∧
          (tok_at tokens pos3).value = ")" then
        .ok (.function_ast name [] loc, pos3 + 1)
      else parse_fn_args fuel tokens cfg name loc [] pos3
termination_by structural fuel

/-- The argument loop of parse_function, parser.cpp lines 369-388: one full
expression per argument, separated by commas, closed by the parenthesis. -/
def parse_fn_args (fuel : Nat) (tokens : List token) (cfg : config)
    (name : String) (loc : code_location) (acc : List ast_node) (pos : Nat) :
    Except parse_err (ast_node × Nat) :=
  match fuel with
  | 0 => .error .out_of_fuel
  | fuel + 1 =>
    match parse_all fuel tokens cfg pos with
    | .error e => .error e
    | .ok (arg, pos2) =>
      let acc2 := acc ++ [arg]
      if pos2 < tokens.length ∧
          (tok_at tokens pos2).type = token_type.punctuation ∧
          (tok_at tokens pos2).value = "," then
        parse_fn_args fuel tokens cfg name loc acc2 (pos2 + 1)
      else if pos2 < tokens.length ∧
          (tok_at tokens pos2).type = token_type.punctuation ∧
          (tok_at tokens pos2).value = ")" then
        .ok (.function_ast name acc2 loc, pos2 + 1)
      else
        .error
          (.unexpected "Expected , or ) in function arguments"
            (prev_or_here tokens pos2))
termination_by structural fuel

/-- fluxins::parse_parenthesis, parser.cpp lines 393-417. -/
def parse_parenthesis (fuel : Nat) (tokens : List token) (cfg : config)
    (pos : Nat) : Except parse_err (ast_node × Nat) :=
  match fuel with
  | 0 => .error .out_of_fuel
  | fuel + 1 =>
    if (tok_at tokens pos).type ≠ token_type.punctuation ∨
        (tok_at tokens pos).value ≠ "(" then
      .error (.unexpected "Expected (" (tok_at tokens pos))
    else
      match parse_all fuel tokens cfg (pos + 1) with
      | .error e => .error e
      | .ok (node, pos2) =>
        if pos2 ≥ tokens.length ∨
            (tok_at tokens pos2).type ≠ token_type.punctuation ∨
            (tok_at tokens pos2).value ≠ ")" then
          .error (.unexpected "Expected )" (prev_or_here tokens pos2))
        else .ok (node, pos2 + 1)
termination_by structural fuel

/-- fluxins::parse_binary_op, parser.cpp lines 419-481: the left operand is
parsed one level tighter (a primary at level 0), then the matching loop. -/
def parse_binary_op (fuel : Nat) (tokens : List token) (cfg : config)
    (pos : Nat) (prec : Nat) : Except parse_err (ast_node × Nat) :=
  match fuel with
  | 0 => .error .out_of_fuel
  | fuel + 1 =>
    match
      (if prec = 0 then parse_primary fuel tokens cfg pos
      else parse_binary_op fuel tokens cfg pos (prec - 1)) with
    | .error e => .error e
    | .ok (left, pos2) => parse_binary_loop fuel tokens cfg prec left pos2
termination_by structural fuel

/-- The operator-matching loop of parse_binary_op, parser.cpp lines
437-478. The right operand is a primary at level 0 (the prec == 0 test
comes FIRST, before the associativity tests); otherwise level prec for a
right-associative operator and level prec - 1 for a left-associative one.
An operator whose associativity is still the max sentinel leaves the
C++ right pointer null, modelled as a none operand. -/
def parse_binary_loop (fuel : Nat) (tokens : List token) (cfg : config)
    (prec : Nat) (left : ast_node) (pos : Nat) :
    Except parse_err (ast_node × Nat) :=
  match fuel with
  | 0 => .error .out_of_fuel
  | fuel + 1 =>
    if pos < tokens.length then
      match
        match_in_row cfg.binary_operators
          (cfg.binary_op_precedence.getD prec []) (tok_at tokens pos) with
      | none => .ok (left, pos)
      | some op_info =>
        let tok := tok_at tokens pos
        match
          (if prec = 0 then
            (parse_primary fuel tokens cfg (pos + 1)).map
              (fun r => (some r.1, r.2))
          else if op_info.assoc = associativity.right then
            (parse_binary_op fuel tokens cfg (pos + 1) prec).map
              (fun r => (some r.1, r.2))
          else if op_info.assoc = associativity.left then
            (parse_binary_op fuel tokens cfg (pos + 1) (prec - 1)).map
              (fun r => (some r.1, r.2))
          else (.ok (none, pos + 1) : Except parse_err (Option ast_node × Nat)))
          with
        | .error e => .error e
        | .ok (right, pos2) =>
          parse_binary_loop fuel tokens cfg prec
            (.operator_ast tok.value (some left) right tok.location) pos2
    else .ok (left, pos)
termination_by structural fuel

/-- fluxins::parse_condition, parser.cpp lines 483-527: the condition is
parsed at the loosest binary level (or as a primary when the precedence
table is empty); a question-mark symbol then introduces the two full
branch expressions. Note the colon check at line 512 only compares the
token value. -/
def parse_condition (fuel : Nat) (tokens : List token) (cfg : config)
    (pos : Nat) : Except parse_err (ast_node × Nat) :=
  match fuel with
  | 0 => .error .out_of_fuel
  | fuel + 1 =>
    match
      (if cfg.binary_op_precedence.length = 0 then
        parse_primary fuel tokens cfg pos
      else
        parse_binary_op fuel tokens cfg pos
          (cfg.binary_op_precedence.length - 1)) with
    | .error e => .error e
    | .ok (condition, pos2) =>
      if pos2 ≥ tokens.length ∨
          (tok_at tokens pos2).type ≠ token_type.symbol ∨
          (tok_at tokens pos2).value ≠ "?" then
        .ok (condition, pos2)
      else
        let loc := (tok_at tokens pos2).location
        match parse_all fuel tokens cfg (pos2 + 1) with
        | .error e => .error e
        | .ok (true_value, pos3) =>
          if pos3 ≥ tokens.length ∨ (tok_at tokens pos3).value ≠ ":" then
            .error
              (.unexpected "Expected : in conditional expression"
                (prev_or_here tokens pos3))
          else
            match parse_all fuel tokens cfg (pos3 + 1) with
            | .error e => .error e
            | .ok (false_value, pos4) =>
              .ok
                (.conditional_ast condition true_value false_value loc, pos4)
termination_by structural fuel

/-- fluxins::parse_all, parser.cpp lines 529-536. -/
def parse_all (fuel : Nat) (tokens : List token) (cfg : config)
    (pos : Nat) : Except parse_err (ast_node × Nat) :=
  match fuel with
  | 0 => .error .out_of_fuel
  | fuel + 1 => parse_condition fuel tokens cfg pos
termination_by structural fuel

end

/-- fluxins::parse, parser.cpp lines 538-560: an empty stream yields the
zero literal; surplus tokens after the expression are rejected. -/
def parse (fuel : Nat) (tokens : List token) (cfg : config) :
    Except parse_err ast_node :=
  if tokens.isEmpty then .ok (.number_ast 0 ⟨0, 0, 0⟩)
  else
    match parse_all fuel tokens cfg 0 with
    | .error e => .error e
    | .ok (node, pos) =>
      if pos ≠ tokens.length then
        .error (.unexpected "Unexpected tokens after expression"
          (tok_at tokens pos))
      else .ok node

/-- Base diagnostic object, error.hpp lines 65-80: message, owning code and
location. The formatted_message field (name, line/column range and preview
rendering, fluxins.cpp lines 465-477) is derived presentation data no claim
inspects and is omitted. -/
structure code_error where
  message : String
  source_code : code
  location : code_location
deriving DecidableEq

/-- The code_error constructor, fluxins.cpp line 465: stores the three
fields it receives. -/
def mk_code_error (message : String) (expr : code)
    (location : code_location) : code_error :=
  ⟨message, expr, location⟩

/-- The invalid_arity object, error.hpp lines 87-93: the base plus the
declared payload fields function, args_count and arity. -/
structure invalid_arity where
  base : code_error
  function : String
  args_count : Nat
  arity : Nat
deriving DecidableEq

/-- The invalid_arity constructor, fluxins.cpp lines 479-482: it only
forwards the formatted text to the base constructor and never assigns the
three payload fields, so function keeps the default-constructed empty
string while args_count and arity stay uninitialized (the 0 below stands in
for an indeterminate C++ value; no theorem relies on it). The C++ message
quotes the function name with apostrophes; the quoting is dropped here. -/
def mk_invalid_arity (function : String) (args_count arity : Nat)
    (expr : code) (location : code_location) : invalid_arity :=
  { base :=
      mk_code_error
        ("Function " ++ function ++ " requires " ++ toString arity ++
          " arguments, but got " ++ toString args_count)
        expr location,
    function := "",
    args_count := 0,
    arity := 0 }

/-- The unexpected_token object, error.hpp lines 110-117: the base plus the
shared_ptr to the offending token. -/
structure unexpected_token where
  base : code_error
  unexpected : Option token
deriving DecidableEq

/-- The unexpected_token constructor, fluxins.cpp lines 489-492: it passes
the token's location to the base and never assigns the unexpected field,
which therefore stays a null shared_ptr, modelled as none. -/
def mk_unexpected_token (message : String) (expr : code) (tok : token) :
    unexpected_token :=
  { base := mk_code_error message expr tok.location, unexpected := none }

/-- The unresolved_reference object, error.hpp lines 124-129: the base plus
the declared payload fields symbol and type. -/
structure unresolved_reference where
  base : code_error
  symbol : String
  type : String
deriving DecidableEq

/-- The unresolved_reference constructor, fluxins.cpp lines 494-497: it
formats the message for the base and never assigns the symbol and type
fields, which stay default-constructed empty strings. The C++ message
quotes the name with apostrophes; the quoting is dropped here. -/
def mk_unresolved_reference (name type : String) (expr : code)
    (location : code_location) : unresolved_reference :=
  { base :=
      mk_code_error ("Unresolved reference to " ++ type ++ " " ++ name)
        expr location,
    symbol := "",
    type := "" }

/-- Number of newline bytes strictly before offset pos: the 1-based line
number of an offset is this plus one. A text-level characterization used to
state what get_line_col computes. -/
def nl_count (s : List Char) : Nat → Nat
  | 0 => 0
  | pos + 1 => nl_count s pos + (if s.get? pos = some '\n' then 1 else 0)

/-- Offset of the first byte of the line containing offset pos: one past
the last newline before pos, or zero. The 0-based column of an offset is
the offset minus this. -/
def line_begin (s : List Char) : Nat → Nat
  | 0 => 0
  | pos + 1 => if s.get? pos = some '\n' then pos + 1 else line_begin s pos

/-- The default-configuration entries for the boolean and null-coalescing
operators, fluxins.cpp lines 226-234: plain callables that combine the two
operand values ("&&" is x != 0 and y != 0, "||" is x != 0 or y != 0, "??"
is x when x != 0 else y), all exact on rationals. -/
def and_op : binary_operator :=
  ⟨"&&", .left, fun _ x y => .ok (if x ≠ 0 ∧ y ≠ 0 then 1 else 0)⟩

/-- The default "||" operator, fluxins.cpp line 227. -/
def or_op : binary_operator :=
  ⟨"||", .left, fun _ x y => .ok (if x ≠ 0 ∨ y ≠ 0 then 1 else 0)⟩

/-- The default "??" operator, fluxins.cpp line 234. -/
def coalesce_op : binary_operator :=
  ⟨"??", .right, fun _ x y => .ok (if x ≠ 0 then x else y)⟩

/-- Fixture configuration holding the three default boolean-style binary
operators, for the concrete no-short-circuit runs. -/
def cfg_bool : config :=
  { binary_operators := [and_op, or_op, coalesce_op],
    binary_op_precedence := [[0, 1], [2]] }

/-- Fixture callable with an observable invocation (its event carries the
name g) returning 100 plus the argument sum. -/
def eff_g : fluxins_function :=
  fun _ args => .ok (args.foldl (fun a x => a + x) (100 : ℚ))

/-- Fixture context binding only the function g. -/
def ctx_g : context := .mk [] [("g", eff_g)] []

/-- Fixture right-associative binary operator named plus. -/
def plus_right : binary_operator := ⟨"+", .right, fun _ x y => .ok (x + y)⟩

/-- Fixture configuration whose single precedence row 0 holds the
right-associative plus, the shape the C4 claim includes. -/
def cfg_row0_right : config :=
  { binary_operators := [plus_right], binary_op_precedence := [[0]] }

/-- Fixture left-associative binary operator named star. -/
def mul_left : binary_operator := ⟨"*", .left, fun _ x y => .ok (x * y)⟩

/-- Fixture configuration with star in row 0 and the right-associative
plus in row 1. -/
def cfg_row1_right : config :=
  { binary_operators := [mul_left, plus_right],
    binary_op_precedence := [[0], [1]] }

/-- Fixture left-associative plus. -/
def plus_left : binary_operator := ⟨"+", .left, fun _ x y => .ok (x + y)⟩

/-- Fixture left-associative minus. -/
def minus_left : binary_operator := ⟨"-", .left, fun _ x y => .ok (x - y)⟩

/-- Fixture configuration with plus in row 0 and minus in row 1, used to
exercise remove_binary_op against the precedence table. -/
def cfg_plus_minus : config :=
  { binary_operators := [plus_left, minus_left],
    binary_op_precedence := [[0], [1]] }

/-- C1: the claim says the tokenizer accepts apostrophe and underscore in
the body of a number literal, removes them before parsing, and tokenizes
1'000 as one number token with value 1000. The code does neither: the
number-continuation alphabet (parser.cpp line 30) contains only digits and
the decimal point, so the scan stops at the separator; the apostrophe then
falls through every branch and raises TokenizerError Invalid character at
offset 1, while 1_000 silently tokenizes as the number 1 followed by the
identifier _000. The separator-stripping code and the ends-with-separator
check (parser.cpp lines 92-107) are unreachable, which shows the claimed
behavior is the intent and the alphabet a slip. -/
theorem c1_digit_separators_rejected :
    tokenize (mk_code ['1', Char.ofNat 39, '0', '0', '0']) =
      .error ⟨"Invalid character", ⟨1, 1, 0⟩⟩ ∧
    tokenize (mk_code ['1', '_', '0', '0', '0']) =
      .ok [⟨.number, "1", ⟨0, 1, 0⟩⟩, ⟨.identifier, "_000", ⟨1, 4, 0⟩⟩] ∧
    tokenize (mk_code ['1', '.', '2', '.', '3']) =
      .error ⟨"Number cannot contain multiple decimal points", ⟨0, 5, 0⟩⟩ := by
  decide

/-- C7: evaluating a suffix-shaped Operator node (only the left operand
present) whose symbol is missing from the suffix table raises
UnresolvedReference whose kind string is "unary prefix operator"
(evaluator.cpp line 93), not the "unary suffix operator" the claim states;
the prefix-shaped and binary-shaped branches do carry their matching kind
strings. -/
theorem c7_suffix_shape_reports_wrong_kind :
    evaluate 2
        (.operator_ast "--" (some (.number_ast 2 ⟨0, 1, 0⟩)) none ⟨1, 2, 0⟩)
        {} (.mk [] [] []) =
      ([], .error (.unresolved_reference "--" "unary prefix operator"
        ⟨1, 2, 0⟩)) ∧
    evaluate 2
        (.operator_ast "++" none (some (.number_ast 2 ⟨2, 1, 0⟩)) ⟨0, 2, 0⟩)
        {} (.mk [] [] []) =
      ([], .error (.unresolved_reference "++" "unary prefix operator"
        ⟨0, 2, 0⟩)) ∧
    evaluate 2
        (.operator_ast "+++" (some (.number_ast 2 ⟨0, 1, 0⟩))
          (some (.number_ast 3 ⟨5, 1, 0⟩)) ⟨1, 3, 0⟩)
        {} (.mk [] [] []) =
      ([], .error (.unresolved_reference "+++" "binary operator"
        ⟨1, 3, 0⟩)) ∧
    "unary prefix operator" ≠ "unary suffix operator" := by
  decide

/-- C8: the specialized error constructors format their payload into the
message but never assign the declared payload fields: an invalid_arity
built as in the arity test (add called with 3 arguments instead of 2)
keeps an empty function field, an unexpected_token keeps a null token
pointer, and an unresolved_reference keeps empty symbol and type fields,
while each message does carry the payload. -/
theorem c8_payload_fields_stay_default :
    (mk_invalid_arity "add" 3 2 (mk_code "add(1, 2, 3)".data)
        ⟨0, 3, 0⟩).function = "" ∧
    (mk_invalid_arity "add" 3 2 (mk_code "add(1, 2, 3)".data)
        ⟨0, 3, 0⟩).base.message =
      "Function add requires 2 arguments, but got 3" ∧
    (mk_unexpected_token "Unexpected tokens after expression"
        (mk_code "3 + 4 5".data) ⟨.number, "5", ⟨6, 1, 0⟩⟩).unexpected =
      none ∧
    (mk_unresolved_reference "x" "variable" (mk_code "x + 1".data)
        ⟨0, 1, 0⟩).symbol = "" ∧
    (mk_unresolved_reference "x" "variable" (mk_code "x + 1".data)
        ⟨0, 1, 0⟩).type = "" ∧
    (mk_unresolved_reference "x" "variable" (mk_code "x + 1".data)
        ⟨0, 1, 0⟩).base.message = "Unresolved reference to variable x" := by
  decide

/-- A hit of a findIdx? scan names a list member satisfying the
predicate, for every start index. -/
theorem findIdx?_some_exists {α : Type} {p : α → Bool} {l : List α} :
    ∀ {i j : Nat}, List.findIdx? p l i = some j → ∃ x ∈ l, p x := by
  induction l with
  | nil => intro i j h; simp [List.findIdx?] at h
  | cons a rest ih =>
    intro i j h
    rw [List.findIdx?] at h
    by_cases hp : p a
    · exact ⟨a, List.mem_cons_self a rest, hp⟩
    · rw [if_neg hp] at h
      rcases ih h with ⟨x, hmem, hx⟩
      exact ⟨x, List.mem_cons_of_mem a hmem, hx⟩

/-- A hit of the binary-operator index scan names a registered operator
with the searched symbol. -/
theorem find_bop_idx_some_exists {l : List binary_operator} {s : String}
    {i : Nat} (h : find_bop_idx l s = some i) : ∃ op ∈ l, op.symbol = s := by
  rcases findIdx?_some_exists h with ⟨op, hmem, hop⟩
  exact ⟨op, hmem, by simpa using hop⟩

/-- The precedence-row scan misses exactly when no row contains the
index, for every value of the loop counter. -/
theorem find_row_containing_eq_none (rows : List (List Nat)) (index : Nat) :
    ∀ i, (find_row_containing rows index i = none ↔
      ∀ row ∈ rows, index ∉ row) := by
  induction rows with
  | nil => intro i; simp [find_row_containing]
  | cons row rest ih =>
    intro i
    rw [find_row_containing]
    by_cases h : row.contains index
    · simp only [h, ite_true]
      simp [List.elem_iff.mp h]
    · simp only [h, Bool.false_eq_true, ite_false, ih (i + 1)]
      have hni : index ∉ row := fun hm => h (List.elem_iff.mpr hm)
      simp [hni]

/-- C10: get_precedence raises invalid_argument exactly when no registered
binary operator carries the symbol; for a registered operator that sits in
no precedence row it does not fail and returns the (size_t)-1 sentinel as
an ordinary value, so a caller cannot tell the no-row case apart by error
alone. -/
theorem c10_get_precedence_sentinel (cfg : config) (symbol : String) :
    (cfg.get_precedence symbol = .error .invalid_argument ↔
      ∀ op ∈ cfg.binary_operators, ¬ op.symbol = symbol) ∧
    (∀ index, find_bop_idx cfg.binary_operators symbol = some index →
      (∀ row ∈ cfg.binary_op_precedence, index ∉ row) →
      cfg.get_precedence symbol = .ok size_t_max) := by
  constructor
  · cases h : find_bop_idx cfg.binary_operators symbol with
    | none =>
      constructor
      · intro _ op hop
        have hfalse := List.findIdx?_eq_none_iff.mp h op hop
        simpa using hfalse
      · intro _
        simp [config.get_precedence, h]
    | some index =>
      have hgp : cfg.get_precedence symbol =
          (match find_row_containing cfg.binary_op_precedence index 0 with
          | some i => .ok i
          | none => .ok size_t_max) := by
        simp [config.get_precedence, h]
      rw [hgp]
      constructor
      · intro hcontra
        cases hfr : find_row_containing cfg.binary_op_precedence index 0 <;>
          rw [hfr] at hcontra <;> exact absurd hcontra (by simp)
      · intro hall
        rcases find_bop_idx_some_exists h with ⟨op, hmem, hsym⟩
        exact absurd hsym (hall op hmem)
  · intro index hidx hrows
    simp [config.get_precedence, hidx,
      (find_row_containing_eq_none cfg.binary_op_precedence index 0).mpr hrows]

/-- C10 witness: a configuration holding one registered operator and an
empty precedence table; getting the registered symbol returns the sentinel
without failing. -/
theorem c10_get_precedence_sentinel_witness :
    ({ binary_operators := [and_op] } : config).get_precedence "&&" =
      .ok size_t_max :=
  (c10_get_precedence_sentinel { binary_operators := [and_op] } "&&").2 0
    (by decide) (by intro row hr; simp at hr)

/-- C2 counterexample: with g registered and f unbound, evaluating
f(g()) raises UnresolvedReference for f with an empty trace, while
evaluating the argument g() alone does fire g; the argument effects
therefore do NOT occur before the lookup miss, contrary to the claimed
order (evaluator.cpp lines 46-62 resolve the function first). -/
theorem c2_function_counterexample :
    evaluate 4 (.function_ast "f" [.function_ast "g" [] ⟨2, 3, 0⟩] ⟨0, 1, 0⟩)
        {} ctx_g =
      ([], .error (.unresolved_reference "f" "function" ⟨0, 1, 0⟩)) ∧
    evaluate 4 (.function_ast "g" [] ⟨2, 3, 0⟩) {} ctx_g =
      ([.fn_call "g" []], .ok 100) := by
  decide

/-- C2 amended: evaluation of a Function node first resolves the name in
the context chain; when the name is unbound, UnresolvedReference is raised
before any argument is evaluated (the trace is empty); when it is bound,
the arguments are evaluated left-to-right and the callable is then invoked
with the call-site location and the argument values (its invocation event
comes after every argument event); an argument error aborts the call. -/
theorem c2_function_resolves_first (fuel : Nat) (name : String)
    (args : List ast_node) (loc : code_location) (cfg : config)
    (ctx : context) :
    (resolve_function fuel ctx name = none →
      evaluate (fuel + 1) (.function_ast name args loc) cfg ctx =
        ([], .error (.unresolved_reference name "function" loc))) ∧
    (∀ f, resolve_function fuel ctx name = some f →
      (∀ t vals, evaluate_args fuel args cfg ctx = (t, .ok vals) →
        evaluate (fuel + 1) (.function_ast name args loc) cfg ctx =
          (t ++ [.fn_call name vals], f loc vals)) ∧
      (∀ t e, evaluate_args fuel args cfg ctx = (t, .error e) →
        evaluate (fuel + 1) (.function_ast name args loc) cfg ctx =
          (t, .error e))) ∧
    (∀ a rest t v t2 vs, evaluate fuel a cfg ctx = (t, .ok v) →
      evaluate_args fuel rest cfg ctx = (t2, .ok vs) →
      evaluate_args (fuel + 1) (a :: rest) cfg ctx =
        (t ++ t2, .ok (v :: vs))) := by
  refine ⟨fun h => by simp [evaluate, h], fun f hf => ⟨?_, ?_⟩, ?_⟩
  · intro t vals hargs
    simp [evaluate, hf, hargs]
  · intro t e hargs
    simp [evaluate, hf, hargs]
  · intro a rest t v t2 vs ha hrest
    simp [evaluate_args, ha, hrest]

/-- C2 amended witness: the unbound-name clause instantiated on f(g()). -/
theorem c2_function_resolves_first_witness :
    evaluate 4 (.function_ast "f" [.function_ast "g" [] ⟨2, 3, 0⟩] ⟨0, 1, 0⟩)
        {} ctx_g =
      ([], .error (.unresolved_reference "f" "function" ⟨0, 1, 0⟩)) :=
  (c2_function_resolves_first 3 "f" [.function_ast "g" [] ⟨2, 3, 0⟩]
    ⟨0, 1, 0⟩ {} ctx_g).1 rfl

/-- C5: for a binary Operator node both operands are evaluated, left
before right, whatever their values, and only then does the operator's
callable fire (its event follows both operand traces); the conclusion
holds for every configured operator, in particular for the default
"&&", "||" and "??" callables, which just combine the two operand values
(fluxins.cpp lines 226-234). -/
theorem c5_binary_no_short_circuit (fuel : Nat) (s : String)
    (a b : ast_node) (loc : code_location) (cfg : config) (ctx : context)
    (t1 t2 : List event) (va vb : ℚ)
    (ha : evaluate fuel a cfg ctx = (t1, .ok va))
    (hb : evaluate fuel b cfg ctx = (t2, .ok vb)) :
    evaluate (fuel + 1) (.operator_ast s (some a) (some b) loc) cfg ctx =
      match cfg.get_binary_op s with
      | some op => (t1 ++ t2 ++ [.binary_call s va vb], op.operate loc va vb)
      | none =>
        (t1 ++ t2, .error (.unresolved_reference s "binary operator" loc)) := by
  cases hop : cfg.get_binary_op s <;> simp [evaluate, ha, hb, hop]

/-- C5 witness: the default "&&" with a zero left operand still evaluates
the effectful right operand; g's invocation event precedes the operator
event and the result combines both values. -/
theorem c5_binary_no_short_circuit_witness :
    evaluate 3
        (.operator_ast "&&" (some (.number_ast 0 ⟨0, 1, 0⟩))
          (some (.function_ast "g" [] ⟨5, 3, 0⟩)) ⟨2, 2, 0⟩)
        cfg_bool ctx_g =
      ([.fn_call "g" [], .binary_call "&&" 0 100], .ok 0) :=
  (c5_binary_no_short_circuit 2 "&&" (.number_ast 0 ⟨0, 1, 0⟩)
    (.function_ast "g" [] ⟨5, 3, 0⟩) ⟨2, 2, 0⟩ cfg_bool ctx_g
    [] [.fn_call "g" []] 0 100 (by decide) (by decide)).trans (by decide)

/-- C6: a Conditional node evaluates its condition and then exactly the
selected branch: with a nonzero condition value the result is the
then-branch evaluation (appended to the condition trace) and the node's
value and trace are unchanged under any replacement of the else-branch;
symmetrically for a zero condition value. Callables reachable only through
the non-taken branch therefore never fire. -/
theorem c6_conditional_selects_one_branch (fuel : Nat)
    (c t e : ast_node) (loc : code_location) (cfg : config) (ctx : context)
    (tc : List event) (v : ℚ)
    (hc : evaluate fuel c cfg ctx = (tc, .ok v)) :
    (v ≠ 0 →
      evaluate (fuel + 1) (.conditional_ast c t e loc) cfg ctx =
        (tc ++ (evaluate fuel t cfg ctx).1, (evaluate fuel t cfg ctx).2) ∧
      ∀ e2, evaluate (fuel + 1) (.conditional_ast c t e2 loc) cfg ctx =
        evaluate (fuel + 1) (.conditional_ast c t e loc) cfg ctx) ∧
    (v = 0 →
      evaluate (fuel + 1) (.conditional_ast c t e loc) cfg ctx =
        (tc ++ (evaluate fuel e cfg ctx).1, (evaluate fuel e cfg ctx).2) ∧
      ∀ t2, evaluate (fuel + 1) (.conditional_ast c t2 e loc) cfg ctx =
        evaluate (fuel + 1) (.conditional_ast c t e loc) cfg ctx) := by
  constructor
  · intro hv
    constructor
    · simp [evaluate, hc, hv]
    · intro e2; simp [evaluate, hc, hv]
  · intro hv
    constructor
    · simp [evaluate, hc, hv]
    · intro t2; simp [evaluate, hc, hv]

/-- C6 witness: with a nonzero condition the node returns the then-branch
value with an empty trace; the effectful g in the else-branch never
fires. -/
theorem c6_conditional_selects_one_branch_witness :
    evaluate 3
        (.conditional_ast (.number_ast 1 ⟨0, 1, 0⟩) (.number_ast 2 ⟨4, 1, 0⟩)
          (.function_ast "g" [] ⟨8, 3, 0⟩) ⟨2, 1, 0⟩)
        cfg_bool ctx_g =
      ([], .ok 2) :=
  (((c6_conditional_selects_one_branch 2 (.number_ast 1 ⟨0, 1, 0⟩)
      (.number_ast 2 ⟨4, 1, 0⟩) (.function_ast "g" [] ⟨8, 3, 0⟩) ⟨2, 1, 0⟩
      cfg_bool ctx_g [] 1 (by decide)).1 (by decide)).1).trans (by decide)

/-- Elementwise reading of a takeWhile prefix: every position below its
length satisfies the predicate, and the position right after it (when
still inside the list) refutes it. -/
theorem takeWhile_length_spec {α : Type} (p : α → Bool) (l : List α) :
    (∀ k, k < (l.takeWhile p).length → ∃ c, l.get? k = some c ∧ p c) ∧
    ((l.takeWhile p).length < l.length →
      ∃ c, l.get? ((l.takeWhile p).length) = some c ∧ ¬ p c) ∧
    (l.takeWhile p).length ≤ l.length := by
  induction l with
  | nil => simp
  | cons a rest ih =>
    by_cases hp : p a
    · simp only [List.takeWhile_cons, hp, ite_true, List.length_cons]
      refine ⟨?_, ?_, by simpa using ih.2.2⟩
      · intro k hk
        match k with
        | 0 => exact ⟨a, rfl, hp⟩
        | k + 1 => exact ih.1 k (by omega)
      · intro hlt
        exact ih.2.1 (by simpa using hlt)
    · simp only [List.takeWhile_cons, hp, Bool.false_eq_true, ite_false,
        List.length_nil]
      exact ⟨fun k hk => absurd hk (by omega),
        fun _ => ⟨a, rfl, hp⟩, by simp⟩

/-- The scan start is a lower bound for find_newline. -/
theorem find_newline_ge (s : List Char) (b : Nat) : b ≤ find_newline s b :=
  Nat.le_add_right b _

/-- find_newline never leaves the text. -/
theorem find_newline_le (s : List Char) (b : Nat) (h : b ≤ s.length) :
    find_newline s b ≤ s.length := by
  have h1 := (takeWhile_length_spec (fun c => !(c == '\n')) (s.drop b)).2.2
  have h2 : (s.drop b).length = s.length - b := List.length_drop b s
  unfold find_newline
  omega

/-- Everything strictly before find_newline is not a newline byte. -/
theorem find_newline_before (s : List Char) (b j : Nat) (h1 : b ≤ j)
    (h2 : j < find_newline s b) : s.get? j ≠ some '\n' := by
  have hk : j - b < ((s.drop b).takeWhile (fun c => !(c == '\n'))).length := by
    unfold find_newline at h2; omega
  rcases (takeWhile_length_spec (fun c => !(c == '\n')) (s.drop b)).1 _ hk
    with ⟨c, hc, hpc⟩
  rw [List.get?_drop] at hc
  have hj : b + (j - b) = j := by omega
  rw [hj] at hc
  rw [hc]
  intro hcon
  have : c = '\n' := by injection hcon
  subst this
  simp at hpc

/-- When find_newline stops inside the text it stops on a newline byte. -/
theorem find_newline_at (s : List Char) (b : Nat)
    (h : find_newline s b < s.length) :
    s.get? (find_newline s b) = some '\n' := by
  have hlt : ((s.drop b).takeWhile (fun c => !(c == '\n'))).length <
      (s.drop b).length := by
    have h2 : (s.drop b).length = s.length - b := List.length_drop b s
    unfold find_newline at h
    omega
  rcases (takeWhile_length_spec (fun c => !(c == '\n')) (s.drop b)).2.1 hlt
    with ⟨c, hc, hpc⟩
  rw [List.get?_drop] at hc
  have : c = '\n' := by
    by_contra hne
    exact hpc (by simpa using hne)
  subst this
  exact hc

/-- Newline counting is stable across a newline-free stretch. -/
theorem nl_count_congr (s : List Char) {b pos : Nat} (hle : b ≤ pos)
    (hfree : ∀ j, b ≤ j → j < pos → s.get? j ≠ some '\n') :
    nl_count s pos = nl_count s b := by
  induction pos, hle using Nat.le_induction with
  | base => rfl
  | succ m hm ih =>
    rw [nl_count]
    have hne := hfree m hm (by omega)
    rw [if_neg hne, Nat.add_zero]
    exact ih (fun j h1 h2 => hfree j h1 (by omega))

/-- The line start of any offset inside a newline-free stretch opening at
a line boundary is that boundary. -/
theorem line_begin_eq (s : List Char) {b pos : Nat} (hle : b ≤ pos)
    (hb : b = 0 ∨ s.get? (b - 1) = some '\n')
    (hfree : ∀ j, b ≤ j → j < pos → s.get? j ≠ some '\n') :
    line_begin s pos = b := by
  induction pos, hle using Nat.le_induction with
  | base =>
    match b, hb with
    | 0, _ => rfl
    | m + 1, hb =>
      rcases hb with h0 | hnl
      · exact absurd h0 (by omega)
      · have hm : s.get? m = some '\n' := hnl
        rw [line_begin, if_pos hm]
  | succ m hm ih =>
    rw [line_begin]
    have hne := hfree m hm (by omega)
    rw [if_neg hne]
    exact ih (fun j h1 h2 => hfree j h1 (by omega))

/-- Offsets before the first line of a tail of the split are covered by no
line the tail produces. -/
theorem split_lines_go_lookup_lt (s : List Char) :
    ∀ fuel e_prev b i pos, pos < b →
      get_line_col_go (split_lines_go fuel s e_prev b) i pos = none := by
  intro fuel
  induction fuel with
  | zero => intro e_prev b i pos _; rfl
  | succ fuel ih =>
    intro e_prev b i pos hlt
    rw [split_lines_go]
    by_cases hg : e_prev < s.length
    · rw [if_pos hg, get_line_col_go]
      rw [if_neg (by omega)]
      exact ih _ _ _ _ (by have := find_newline_ge s b; omega)
    · rw [if_neg hg]; rfl

/-- A tail of the split whose guard value is past the text produces no
lines. -/
theorem split_lines_go_stop (s : List Char) (fuel e_prev b : Nat)
    (h : s.length ≤ e_prev) : split_lines_go fuel s e_prev b = [] := by
  cases fuel with
  | zero => rfl
  | succ fuel => rw [split_lines_go, if_neg (by omega)]

/-- Main loop invariant for C9: looking an offset up in the lines the tail
of the split produces from a line boundary answers the text-level
line/column exactly for the non-newline in-text offsets at or after the
boundary. -/
theorem split_lines_go_lookup (s : List Char) :
    ∀ fuel b e_prev i pos,
      s.length + 1 - b ≤ fuel →
      e_prev < s.length →
      b ≤ s.length →
      (b = 0 ∨ s.get? (b - 1) = some '\n') →
      i = nl_count s b →
      b ≤ pos →
      get_line_col_go (split_lines_go fuel s e_prev b) i pos =
        (if pos < s.length ∧ s.get? pos ≠ some '\n' then
          some (nl_count s pos + 1, pos - line_begin s pos)
        else none) := by
  intro fuel
  induction fuel with
  | zero => intro b e_prev i pos hfuel hg hb _ _ _; omega
  | succ fuel ih =>
    intro b e_prev i pos hfuel hg hb hbound hi hpos
    rw [split_lines_go, if_pos hg, get_line_col_go]
    have he_ge : b ≤ find_newline s b := find_newline_ge s b
    have he_le : find_newline s b ≤ s.length := find_newline_le s b hb
    have hspan : b + (find_newline s b - b) = find_newline s b := by omega
    by_cases hhit : pos < find_newline s b
    · rw [if_pos (by constructor <;> omega)]
      have hfree : ∀ j, b ≤ j → j < pos → s.get? j ≠ some '\n' :=
        fun j h1 h2 => find_newline_before s b j h1 (by omega)
      have hc : s.get? pos ≠ some '\n' :=
        find_newline_before s b pos hpos hhit
      rw [if_pos ⟨by omega, hc⟩]
      rw [nl_count_congr s hpos hfree, line_begin_eq s hpos hbound hfree, hi]
    · rw [if_neg (by omega)]
      by_cases hend : find_newline s b < s.length
      · have hnl : s.get? (find_newline s b) = some '\n' :=
          find_newline_at s b hend
        have hfree : ∀ j, b ≤ j → j < find_newline s b →
            s.get? j ≠ some '\n' :=
          fun j h1 h2 => find_newline_before s b j h1 h2
        by_cases hat : pos = find_newline s b
        · rw [split_lines_go_lookup_lt s fuel _ _ _ _ (by omega)]
          rw [if_neg (by rw [hat]; intro hcon; exact hcon.2 hnl)]
        · have hgt : find_newline s b + 1 ≤ pos := by omega
          rw [ih (find_newline s b + 1) (find_newline s b) (i + 1) pos
            (by omega) hend (by omega)
            (Or.inr (by simpa using hnl))
            (by
              rw [nl_count, if_pos hnl,
                nl_count_congr s he_ge hfree, hi])
            hgt]
      · have heq : find_newline s b = s.length := by omega
        rw [split_lines_go_stop s fuel _ _ (by omega)]
        rw [if_neg (by omega)]
        rfl

/-- C9 amended: get_line_col fails exactly when the offset is past the end
of the text OR lands on a newline byte (the line spans exclude the
newline terminators, fluxins.cpp lines 44-76); for every other in-text
offset it returns the 1-based line number (one plus the newlines before
the offset) and the 0-based column (the offset minus its line start). -/
theorem c9_get_line_col_characterized (s : List Char) (pos : Nat) :
    (pos < s.length ∧ s.get? pos ≠ some '\n' →
      get_line_col (mk_code s) pos =
        some (nl_count s pos + 1, pos - line_begin s pos)) ∧
    (s.length ≤ pos ∨ s.get? pos = some '\n' →
      get_line_col (mk_code s) pos = none) := by
  have hmain : get_line_col (mk_code s) pos =
      (if pos < s.length ∧ s.get? pos ≠ some '\n' then
        some (nl_count s pos + 1, pos - line_begin s pos)
      else none) := by
    by_cases hempty : 0 < s.length
    · exact split_lines_go_lookup s (s.length + 1) 0 0 0 pos (by omega)
        hempty (by omega) (Or.inl rfl) rfl (by omega)
    · have hlen : s.length = 0 := by omega
      unfold get_line_col mk_code split_lines
      rw [split_lines_go_stop s _ _ _ (by omega)]
      rw [if_neg (by omega)]
      rfl
  constructor
  · intro h; rw [hmain, if_pos h]
  · intro h
    rw [hmain, if_neg ?_]
    rcases h with h | h
    · intro hcon; omega
    · intro hcon; exact hcon.2 h

/-- C9 counterexample: in the text a-newline-b the newline offset 1 is
inside the text, yet get_line_col fails on it, so OutOfRange is not raised
exactly for past-the-end offsets as the claim states. -/
theorem c9_newline_offset_counterexample :
    1 < (['a', '\n', 'b'] : List Char).length ∧
    get_line_col (mk_code ['a', '\n', 'b']) 1 = none := by
  decide

/-- C9 amended witness: the characterization applied to the same text at
the offset after the newline (line 2, column 0) and at the newline offset
(failure). -/
theorem c9_get_line_col_characterized_witness :
    get_line_col (mk_code ['a', '\n', 'b']) 2 = some (2, 0) ∧
    get_line_col (mk_code ['a', '\n', 'b']) 1 = none :=
  ⟨by
    have h := (c9_get_line_col_characterized ['a', '\n', 'b'] 2).1
      ⟨by decide, by decide⟩
    simpa using h,
  (c9_get_line_col_characterized ['a', '\n', 'b'] 1).2 (Or.inr (by decide))⟩

/-- C4 counterexample: with a right-associative operator assigned to the
highest row 0, the input 1 + 2 + 3 parses LEFT-nested, because the
prec == 0 test in parse_binary_op (parser.cpp lines 456-458) precedes the
associativity tests and always takes a primary as the right operand; the
claimed right-nested tree is a different tree. -/
theorem c4_row0_right_assoc_counterexample :
    parse 20
        [⟨.number, "1", ⟨0, 1, 0⟩⟩, ⟨.symbol, "+", ⟨2, 1, 0⟩⟩,
          ⟨.number, "2", ⟨4, 1, 0⟩⟩, ⟨.symbol, "+", ⟨6, 1, 0⟩⟩,
          ⟨.number, "3", ⟨8, 1, 0⟩⟩] cfg_row0_right =
      .ok (.operator_ast "+"
        (some (.operator_ast "+"
          (some (.number_ast (stof_lit "1") ⟨0, 1, 0⟩))
          (some (.number_ast (stof_lit "2") ⟨4, 1, 0⟩)) ⟨2, 1, 0⟩))
        (some (.number_ast (stof_lit "3") ⟨8, 1, 0⟩)) ⟨6, 1, 0⟩) ∧
    (.operator_ast "+"
        (some (.operator_ast "+"
          (some (.number_ast (stof_lit "1") ⟨0, 1, 0⟩))
          (some (.number_ast (stof_lit "2") ⟨4, 1, 0⟩)) ⟨2, 1, 0⟩))
        (some (.number_ast (stof_lit "3") ⟨8, 1, 0⟩)) ⟨6, 1, 0⟩ : ast_node) ≠
      .operator_ast "+"
        (some (.number_ast (stof_lit "1") ⟨0, 1, 0⟩))
        (some (.operator_ast "+"
          (some (.number_ast (stof_lit "2") ⟨4, 1, 0⟩))
          (some (.number_ast (stof_lit "3") ⟨8, 1, 0⟩)) ⟨6, 1, 0⟩))
        ⟨2, 1, 0⟩ := by
  constructor
  · rfl
  · intro h; simp at h

/-- A precedence row none of whose entries carries the token's symbol
matches nothing. -/
theorem match_in_row_none {ops : List binary_operator} {tok : token}
    {row : List Nat} (h : ∀ i ∈ row, ¬ (bop_at ops i).symbol = tok.value) :
    match_in_row ops row tok = none := by
  induction row with
  | nil => rfl
  | cons i rest ih =>
    rw [match_in_row]
    rw [if_neg (fun hc => (h i (List.mem_cons_self i rest)) hc.2.symm)]
    exact ih (fun j hj => h j (List.mem_cons_of_mem i hj))

/-- Reading a token through tok_at when the position is known. -/
theorem tok_at_eq {ts : List token} {p : Nat} {t : token}
    (h : ts.get? p = some t) : tok_at ts p = t := by
  rw [tok_at, h]; rfl

/-- Position bound from a successful token read. -/
theorem lt_length_of_get? {ts : List token} {p : Nat} {t : token}
    (h : ts.get? p = some t) : p < ts.length := by
  by_contra hc
  rw [List.get?_eq_none.mpr (by omega)] at h
  cases h

/-- A primary whose head token is a number and whose following token (when
present) is a symbol that is no suffix operator parses to the number leaf
and stops right after it. -/
theorem parse_primary_number (ts : List token) (cfg : config) (s v : String)
    (lv : code_location) (p : Nat)
    (htok : ts.get? p = some ⟨token_type.number, v, lv⟩)
    (hnext : p + 1 = ts.length ∨
      ∃ ls, ts.get? (p + 1) = some ⟨token_type.symbol, s, ls⟩)
    (hsfx : ∀ op ∈ cfg.unary_suffix_operators, ¬ op.symbol = s) :
    ∀ f, parse_primary (f + 2) ts cfg p =
      .ok (.number_ast (stof_lit v) lv, p + 1) := by
  intro f
  have hp : p < ts.length := lt_length_of_get? htok
  have htokat : tok_at ts p = ⟨token_type.number, v, lv⟩ := tok_at_eq htok
  have hcore : parse_number ts p =
      .ok (.number_ast (stof_lit v) lv, p + 1) := by
    rw [parse_number, htokat]; rfl
  have hsuffix : parse_suffix_loop (f + 1) ts cfg
      (.number_ast (stof_lit v) lv) (p + 1) =
      .ok (.number_ast (stof_lit v) lv, p + 1) := by
    rcases hnext with hend | ⟨ls, hs⟩
    · rw [parse_suffix_loop, if_neg (by omega)]
    · have hlt : p + 1 < ts.length := lt_length_of_get? hs
      rw [parse_suffix_loop, if_pos hlt, tok_at_eq hs]
      have hfind : cfg.unary_suffix_operators.find?
          (fun op =>
            (⟨token_type.symbol, s, ls⟩ : token).value == op.symbol) =
          none := by
        apply List.find?_eq_none.mpr
        intro op hop
        simp only [Bool.not_eq_true, beq_eq_false_iff_ne, ne_eq]
        exact fun hc => (hsfx op hop) hc.symm
      rw [if_pos rfl]
      rw [hfind]
  rw [parse_primary]
  rw [if_neg (by omega), htokat]
  dsimp only
  rw [if_neg (fun hc => by cases hc)]
  dsimp only
  rw [if_pos rfl, hcore]
  exact hsuffix

/-- A trailing binary-loop invocation past the end of the stream returns
its node unchanged. -/
theorem parse_binary_loop_end (ts : List token) (cfg : config) (prec : Nat)
    (node : ast_node) (p : Nat) (hend : ts.length ≤ p) (f : Nat) :
    parse_binary_loop (f + 1) ts cfg prec node p = .ok (node, p) := by
  rw [parse_binary_loop, if_neg (by omega)]

/-- Below the operator's row every binary level just passes the number
leaf through: the left recursion bottoms out at the primary and the
matching loop sees a symbol carried by no entry of the rows up to that
level. -/
theorem parse_binary_below (ts : List token) (cfg : config) (s : String) :
    ∀ prec, (∀ j, j ≤ prec →
        ∀ i ∈ cfg.binary_op_precedence.getD j [], ¬ (bop_at cfg.binary_operators i).symbol = s) →
      (∀ op ∈ cfg.unary_suffix_operators, ¬ op.symbol = s) →
      ∀ (v : String) (lv : code_location) (p : Nat),
        ts.get? p = some ⟨token_type.number, v, lv⟩ →
        (p + 1 = ts.length ∨
          ∃ ls, ts.get? (p + 1) = some ⟨token_type.symbol, s, ls⟩) →
        ∀ f, parse_binary_op (f + prec + 3) ts cfg p prec =
          .ok (.number_ast (stof_lit v) lv, p + 1) := by
  intro prec
  induction prec with
  | zero =>
    intro hrows hsfx v lv p htok hnext f
    rw [parse_binary_op]
    rw [if_pos rfl]
    rw [parse_primary_number ts cfg s v lv p htok hnext hsfx f]
    dsimp only
    rcases hnext with hend | ⟨ls, hs⟩
    · exact parse_binary_loop_end ts cfg 0 _ (p + 1) (by omega) (f + 1)
    · have hlt : p + 1 < ts.length := lt_length_of_get? hs
      rw [parse_binary_loop, if_pos hlt, tok_at_eq hs]
      rw [match_in_row_none (fun i hi => hrows 0 (by omega) i hi)]
  | succ prec ih =>
    intro hrows hsfx v lv p htok hnext f
    rw [parse_binary_op]
    rw [if_neg (by omega)]
    simp only [Nat.add_sub_cancel,
      show f + (prec + 1) + 2 = f + prec + 3 from by omega]
    rw [ih (fun j hj => hrows j (by omega)) hsfx v lv p htok hnext f]
    dsimp only
    rcases hnext with hend | ⟨ls, hs⟩
    · exact parse_binary_loop_end ts cfg (prec + 1) _ (p + 1) (by omega) _
    · have hlt : p + 1 < ts.length := lt_length_of_get? hs
      rw [parse_binary_loop, if_pos hlt, tok_at_eq hs]
      rw [match_in_row_none (fun i hi => hrows (prec + 1) (by omega) i hi)]

/-- At the operator's own row k >= 1 the a op b op c stream parses
right-nested: the right-operand recursion re-enters level k. -/
theorem parse_binary_at_k (cfg : config) (s va vb vc : String)
    (la l1 lb l2 lc : code_location) (k : Nat) (opi : binary_operator)
    (hk1 : 1 ≤ k)
    (hrows : ∀ j, j ≠ k → ∀ i ∈ cfg.binary_op_precedence.getD j [],
      ¬ (bop_at cfg.binary_operators i).symbol = s)
    (hsfx : ∀ op ∈ cfg.unary_suffix_operators, ¬ op.symbol = s)
    (hmatch : ∀ ls : code_location,
      match_in_row cfg.binary_operators (cfg.binary_op_precedence.getD k [])
        ⟨token_type.symbol, s, ls⟩ = some opi)
    (hassoc : opi.assoc = .right) :
    ∀ f, parse_binary_op (f + k + 7)
        [⟨.number, va, la⟩, ⟨.symbol, s, l1⟩, ⟨.number, vb, lb⟩,
          ⟨.symbol, s, l2⟩, ⟨.number, vc, lc⟩] cfg 0 k =
      .ok (.operator_ast s (some (.number_ast (stof_lit va) la))
        (some (.operator_ast s (some (.number_ast (stof_lit vb) lb))
          (some (.number_ast (stof_lit vc) lc)) l2)) l1, 5) := by
  intro f
  set ts : List token :=
    [⟨.number, va, la⟩, ⟨.symbol, s, l1⟩, ⟨.number, vb, lb⟩,
      ⟨.symbol, s, l2⟩, ⟨.number, vc, lc⟩] with hts
  have h0 : ts.get? 0 = some ⟨.number, va, la⟩ := rfl
  have h1 : ts.get? 1 = some ⟨.symbol, s, l1⟩ := rfl
  have h2 : ts.get? 2 = some ⟨.number, vb, lb⟩ := rfl
  have h3 : ts.get? 3 = some ⟨.symbol, s, l2⟩ := rfl
  have h4 : ts.get? 4 = some ⟨.number, vc, lc⟩ := rfl
  have hlen : ts.length = 5 := rfl
  have hbelow := parse_binary_below ts cfg s (k - 1)
    (fun j hj => hrows j (by omega)) hsfx
  have hC : ∀ g, parse_binary_op (g + k + 3) ts cfg 4 k =
      .ok (.number_ast (stof_lit vc) lc, 5) := by
    intro g
    rw [parse_binary_op, if_neg (by omega)]
    rw [show g + k + 2 = g + (k - 1) + 3 from by omega]
    rw [hbelow vc lc 4 h4 (Or.inl (by omega)) g]
    dsimp only
    exact parse_binary_loop_end ts cfg k _ 5 (by omega) _
  have hB : ∀ g, parse_binary_op (g + k + 5) ts cfg 2 k =
      .ok (.operator_ast s (some (.number_ast (stof_lit vb) lb))
        (some (.number_ast (stof_lit vc) lc)) l2, 5) := by
    intro g
    rw [parse_binary_op, if_neg (by omega)]
    rw [show g + k + 4 = (g + 2) + (k - 1) + 3 from by omega]
    rw [hbelow vb lb 2 h2 (Or.inr ⟨l2, h3⟩) (g + 2)]
    dsimp only
    rw [parse_binary_loop, if_pos (by omega), tok_at_eq h3, hmatch l2]
    dsimp only
    rw [if_neg (by omega), if_pos hassoc]
    rw [show g + 2 + (k - 1) + 2 = g + k + 3 from by omega]
    rw [hC g]
    exact parse_binary_loop_end ts cfg k _ 5 (by omega) _
  rw [parse_binary_op, if_neg (by omega)]
  rw [show f + k + 6 = (f + 4) + (k - 1) + 3 from by omega]
  rw [hbelow va la 0 h0 (Or.inr ⟨l1, h1⟩) (f + 4)]
  dsimp only
  rw [parse_binary_loop, if_pos (by omega), tok_at_eq h1, hmatch l1]
  dsimp only
  rw [if_neg (by omega), if_pos hassoc]
  rw [show f + 4 + (k - 1) + 2 = f + k + 5 from by omega]
  rw [hB f]
  exact parse_binary_loop_end ts cfg k _ 5 (by omega) _

/-- The rows looser than k pass the finished tree through unchanged: the
stream is exhausted when they loop. -/
theorem parse_binary_above_k (cfg : config) (s va vb vc : String)
    (la l1 lb l2 lc : code_location) (k : Nat) (opi : binary_operator)
    (hk1 : 1 ≤ k)
    (hrows : ∀ j, j ≠ k → ∀ i ∈ cfg.binary_op_precedence.getD j [],
      ¬ (bop_at cfg.binary_operators i).symbol = s)
    (hsfx : ∀ op ∈ cfg.unary_suffix_operators, ¬ op.symbol = s)
    (hmatch : ∀ ls : code_location,
      match_in_row cfg.binary_operators (cfg.binary_op_precedence.getD k [])
        ⟨token_type.symbol, s, ls⟩ = some opi)
    (hassoc : opi.assoc = .right) :
    ∀ d f, parse_binary_op (f + d + k + 8)
        [⟨.number, va, la⟩, ⟨.symbol, s, l1⟩, ⟨.number, vb, lb⟩,
          ⟨.symbol, s, l2⟩, ⟨.number, vc, lc⟩] cfg 0 (k + d) =
      .ok (.operator_ast s (some (.number_ast (stof_lit va) la))
        (some (.operator_ast s (some (.number_ast (stof_lit vb) lb))
          (some (.number_ast (stof_lit vc) lc)) l2)) l1, 5) := by
  intro d
  induction d with
  | zero =>
    intro f
    rw [show f + 0 + k + 8 = (f + 1) + k + 7 from by omega]
    exact parse_binary_at_k cfg s va vb vc la l1 lb l2 lc k opi hk1 hrows
      hsfx hmatch hassoc (f + 1)
  | succ d ih =>
    intro f
    rw [parse_binary_op, if_neg (by omega)]
    rw [show f + (d + 1) + k + 7 = f + d + k + 8 from by omega,
      show k + (d + 1) - 1 = k + d from by omega]
    rw [ih f]
    exact parse_binary_loop_end _ cfg (k + (d + 1)) _ 5 (by simp) _

/-- C4 amended: for a binary operator registered right-associative and
assigned to any precedence row k with 1 <= k (strictly below the highest
row 0), a op b op c parses as a op (b op c): the right-operand recursion
re-enters level k. At row 0 the right operand is always a primary
(parser.cpp line 456), so there the grouping is left regardless of the
declared associativity, as the counterexample shows. -/
theorem c4_right_assoc_below_row0 (cfg : config) (s va vb vc : String)
    (la l1 lb l2 lc : code_location) (k : Nat) (opi : binary_operator)
    (hk1 : 1 ≤ k) (hk2 : k < cfg.binary_op_precedence.length)
    (hrows : ∀ j, j ≠ k → ∀ i ∈ cfg.binary_op_precedence.getD j [],
      ¬ (bop_at cfg.binary_operators i).symbol = s)
    (hsfx : ∀ op ∈ cfg.unary_suffix_operators, ¬ op.symbol = s)
    (hmatch : ∀ ls : code_location,
      match_in_row cfg.binary_operators (cfg.binary_op_precedence.getD k [])
        ⟨token_type.symbol, s, ls⟩ = some opi)
    (hassoc : opi.assoc = .right) (fuel : Nat)
    (hfuel : cfg.binary_op_precedence.length + 9 ≤ fuel) :
    parse fuel
        [⟨.number, va, la⟩, ⟨.symbol, s, l1⟩, ⟨.number, vb, lb⟩,
          ⟨.symbol, s, l2⟩, ⟨.number, vc, lc⟩] cfg =
      .ok (.operator_ast s (some (.number_ast (stof_lit va) la))
        (some (.operator_ast s (some (.number_ast (stof_lit vb) lb))
          (some (.number_ast (stof_lit vc) lc)) l2)) l1) := by
  obtain ⟨f, rfl⟩ : ∃ f, fuel = f + (cfg.binary_op_precedence.length + 9) :=
    ⟨fuel - (cfg.binary_op_precedence.length + 9), by omega⟩
  have habove := parse_binary_above_k cfg s va vb vc la l1 lb l2 lc k opi
    hk1 hrows hsfx hmatch hassoc (cfg.binary_op_precedence.length - 1 - k) f
  rw [parse, if_neg (by simp)]
  rw [show f + (cfg.binary_op_precedence.length + 9) =
    (f + cfg.binary_op_precedence.length + 8) + 1 from by omega]
  rw [parse_all]
  rw [show f + cfg.binary_op_precedence.length + 8 =
    (f + cfg.binary_op_precedence.length + 7) + 1 from by omega]
  rw [parse_condition]
  rw [if_neg (by omega)]
  rw [show cfg.binary_op_precedence.length - 1 =
    k + (cfg.binary_op_precedence.length - 1 - k) from by omega]
  rw [show f + cfg.binary_op_precedence.length + 7 =
    f + (cfg.binary_op_precedence.length - 1 - k) + k + 8 from by omega]
  rw [habove]
  rfl

/-- C4 amended witness: the theorem applied to a configuration holding the
right-associative plus in row 1 below a row-0 star; 1 + 2 + 3 parses
right-nested. -/
theorem c4_right_assoc_below_row0_witness :
    parse 50
        [⟨.number, "1", ⟨0, 1, 0⟩⟩, ⟨.symbol, "+", ⟨2, 1, 0⟩⟩,
          ⟨.number, "2", ⟨4, 1, 0⟩⟩, ⟨.symbol, "+", ⟨6, 1, 0⟩⟩,
          ⟨.number, "3", ⟨8, 1, 0⟩⟩] cfg_row1_right =
      .ok (.operator_ast "+" (some (.number_ast (stof_lit "1") ⟨0, 1, 0⟩))
        (some (.operator_ast "+"
          (some (.number_ast (stof_lit "2") ⟨4, 1, 0⟩))
          (some (.number_ast (stof_lit "3") ⟨8, 1, 0⟩)) ⟨6, 1, 0⟩))
        ⟨2, 1, 0⟩) :=
  c4_right_assoc_below_row0 cfg_row1_right "+" "1" "2" "3" ⟨0, 1, 0⟩
    ⟨2, 1, 0⟩ ⟨4, 1, 0⟩ ⟨6, 1, 0⟩ ⟨8, 1, 0⟩ 1 plus_right (by decide)
    (by decide)
    (by
      intro j hj i hi
      rcases j with _ | _ | j
      · simp [cfg_row1_right] at hi
        subst hi
        decide
      · exact absurd rfl hj
      · exact absurd hi (List.not_mem_nil i))
    (fun op hop => absurd hop (List.not_mem_nil op))
    (fun ls => rfl) rfl 50 (by decide)

/-- C3 counterexample: removing the binary operator plus from a
configuration whose rows are [[0], [1]] leaves the precedence table
untouched (remove_binary_op, fluxins.cpp lines 217-226, erases only from
binary_operators), so entry 0 now denotes minus instead of plus and entry
1 dangles past the shrunk operator list: row-shift correctness fails. -/
theorem c3_remove_binary_counterexample :
    (cfg_plus_minus.remove_binary_op "+").2 = none ∧
    (cfg_plus_minus.remove_binary_op "+").1.binary_op_precedence =
      [[0], [1]] ∧
    0 ∈ (cfg_plus_minus.remove_binary_op "+").1.binary_op_precedence.flatten ∧
    cfg_plus_minus.denotes 0 = some "+" ∧
    (cfg_plus_minus.remove_binary_op "+").1.denotes 0 = some "-" ∧
    1 ∈ (cfg_plus_minus.remove_binary_op "+").1.binary_op_precedence.flatten ∧
    (cfg_plus_minus.remove_binary_op "+").1.denotes 1 = none := by
  decide

/-- Inserting an empty row anywhere in bounds leaves the flattened entry
list unchanged. -/
theorem flatten_insertIdx_nil (rows : List (List Nat)) :
    ∀ p, p ≤ rows.length →
      (rows.insertIdx p ([] : List Nat)).flatten = rows.flatten := by
  induction rows with
  | nil =>
    intro p hp
    simp only [List.length_nil, Nat.le_zero] at hp
    subst hp
    rfl
  | cons r rest ih =>
    intro p hp
    cases p with
    | zero => simp [List.insertIdx_zero, List.flatten]
    | succ p =>
      rw [List.insertIdx_succ_cons]
      simp only [List.flatten_cons]
      rw [ih p (by simpa using hp)]

/-- Appending an index to a row in bounds raises exactly that index's
count in the flattened entry list. -/
theorem count_flatten_set_append (index x : Nat) :
    ∀ (rows : List (List Nat)) (p : Nat), p < rows.length →
      (rows.set p (rows.getD p [] ++ [index])).flatten.count x =
        rows.flatten.count x + (if x = index then 1 else 0) := by
  intro rows
  induction rows with
  | nil => intro p hp; simp at hp
  | cons r rest ih =>
    intro p hp
    cases p with
    | zero =>
      simp only [List.set_cons_zero, List.getD_cons_zero, List.flatten_cons,
        List.count_append, List.count_singleton]
      by_cases hx : x = index
      · subst hx; simp; omega
      · have hxs : ¬ index = x := fun hcon => hx hcon.symm
        simp [hx, hxs]
    | succ p =>
      simp only [List.set_cons_succ, List.getD_cons_succ, List.flatten_cons,
        List.count_append]
      rw [ih p (by simpa using hp)]
      omega

/-- A failed erase_row_entry scan means no row holds the index. -/
theorem erase_row_entry_none (index : Nat) :
    ∀ (rows : List (List Nat)) (i : Nat),
      erase_row_entry rows index i = none → index ∉ rows.flatten := by
  intro rows
  induction rows with
  | nil => intro i _; simp
  | cons r rest ih =>
    intro i h
    rw [erase_row_entry] at h
    by_cases hc : r.contains index
    · rw [if_pos hc] at h
      by_cases he : (r.erase index).isEmpty <;> simp [he] at h
    · rw [if_neg hc] at h
      have hrec : erase_row_entry rest index (i + 1) = none := by
        cases hr : erase_row_entry rest index (i + 1) with
        | none => rfl
        | some v => rw [hr] at h; cases h
      simp only [List.flatten_cons, List.mem_append]
      rintro (hm | hm)
      · exact hc (List.elem_iff.mpr hm)
      · exact ih (i + 1) hrec hm

/-- A successful erase_row_entry scan removes exactly one occurrence of
the index from the flattened entry list and leaves every other count
unchanged; the index was present. -/
theorem erase_row_entry_some (index : Nat) :
    ∀ (rows : List (List Nat)) (i : Nat) (rows2 : List (List Nat))
      (removed : Option Nat),
      erase_row_entry rows index i = some (rows2, removed) →
      index ∈ rows.flatten ∧
      ∀ x, rows2.flatten.count x =
        rows.flatten.count x - (if x = index then 1 else 0) := by
  intro rows
  induction rows with
  | nil => intro i rows2 removed h; cases h
  | cons r rest ih =>
    intro i rows2 removed h
    rw [erase_row_entry] at h
    by_cases hc : r.contains index
    · rw [if_pos hc] at h
      have hmem : index ∈ r := List.elem_iff.mp hc
      by_cases he : (r.erase index).isEmpty
      · rw [if_pos he] at h
        injection h with h1
        injection h1 with h1 h2
        subst h1
        have hsingle : r = [index] := by
          have hlen : (r.erase index).length = r.length - 1 :=
            List.length_erase_of_mem hmem
          have h0 : (r.erase index).length = 0 := by
            rw [List.isEmpty_iff] at he
            rw [he]
            rfl
          rcases r with _ | ⟨a, _ | ⟨b, rr⟩⟩
          · cases hmem
          · have ha : index = a := by simpa using hmem
            rw [ha]
          · exfalso
            simp only [List.length_cons] at hlen
            omega
        subst hsingle
        refine ⟨by simp, ?_⟩
        intro x
        simp only [List.flatten_cons, List.count_append,
          List.count_singleton]
        by_cases hx : x = index
        · subst hx; simp
        · have hxs : ¬ index = x := fun hcon => hx hcon.symm
          simp [hx, hxs]
      · rw [if_neg he] at h
        injection h with h1
        injection h1 with h1 h2
        subst h1
        refine ⟨by simp [hmem], ?_⟩
        intro x
        simp only [List.flatten_cons, List.count_append]
        rw [List.count_erase]
        have hcnt : 1 ≤ r.count index := List.one_le_count_iff.mpr hmem
        by_cases hx : x = index
        · subst hx; simp; omega
        · have : ¬ (index == x) := by simpa using fun hcon => hx hcon.symm
          simp [this, hx]
    · rw [if_neg hc] at h
      cases hr : erase_row_entry rest index (i + 1) with
      | none => rw [hr] at h; cases h
      | some v =>
        rw [hr] at h
        injection h with h1
        injection h1 with h1 h2
        rcases v with ⟨rest2, removed2⟩
        have := ih (i + 1) rest2 removed2 hr
        rcases this with ⟨hmem, hcount⟩
        subst h1
        have hidxr : index ∉ r := fun hm => hc (List.elem_iff.mpr hm)
        refine ⟨by simp [hmem], ?_⟩
        intro x
        simp only [List.flatten_cons, List.count_append]
        rw [hcount x]
        by_cases hx : x = index
        · subst hx
          have h0 : r.count x = 0 := List.count_eq_zero.mpr hidxr
          have h1 : 1 ≤ rest.flatten.count x :=
            List.one_le_count_iff.mpr hmem
          simp only [if_pos rfl]
          omega
        · simp [hx]

/-- A findIdx? hit lies within the scanned range. -/
theorem findIdx?_some_bounds {α : Type} {p : α → Bool} {l : List α} :
    ∀ {i j : Nat}, List.findIdx? p l i = some j → i ≤ j ∧ j < i + l.length := by
  induction l with
  | nil => intro i j h; simp [List.findIdx?] at h
  | cons a rest ih =>
    intro i j h
    rw [List.findIdx?] at h
    by_cases hp : p a
    · rw [if_pos hp] at h
      injection h with h
      subst h
      simp only [List.length_cons]
      omega
    · rw [if_neg hp] at h
      have := ih h
      simp only [List.length_cons]
      omega

/-- Appending an element with a fresh image keeps the mapped list
duplicate-free. -/
theorem nodup_map_append_singleton {α β : Type} {f : α → β} {l : List α}
    {a : α} (h : (l.map f).Nodup) (hfresh : ∀ x ∈ l, ¬ f x = f a) :
    ((l ++ [a]).map f).Nodup := by
  rw [List.map_append]
  rw [List.nodup_append]
  refine ⟨h, by simp, ?_⟩
  intro y hy
  rcases List.mem_map.mp hy with ⟨x, hx, rfl⟩
  simp only [List.map_cons, List.map_nil, List.mem_singleton]
  exact hfresh x hx

/-- Erasing a position keeps the mapped list duplicate-free. -/
theorem nodup_map_eraseIdx {α β : Type} (f : α → β) (l : List α) (i : Nat)
    (h : (l.map f).Nodup) : ((l.eraseIdx i).map f).Nodup :=
  h.sublist ((l.eraseIdx_sublist i).map f)

/-- The bounds check and append step of assign_precedence preserve the
bookkeeping facts: entry counts stay at most one (the operator being
assigned was entered in no row), entries stay in range, and the three
operator groups are untouched. -/
theorem assign_append_facts (cfg : config) (index precedence : Nat)
    (hcount0 : cfg.binary_op_precedence.flatten.count index = 0)
    (hcnt : ∀ x, cfg.binary_op_precedence.flatten.count x ≤ 1)
    (hin : cfg.rows_in_range)
    (hidx : index < cfg.binary_operators.length) :
    (∀ x, (assign_append cfg index precedence).1.binary_op_precedence.flatten.count x ≤ 1) ∧
    (assign_append cfg index precedence).1.rows_in_range ∧
    (assign_append cfg index precedence).1.binary_operators = cfg.binary_operators ∧
    (assign_append cfg index precedence).1.unary_prefix_operators = cfg.unary_prefix_operators ∧
    (assign_append cfg index precedence).1.unary_suffix_operators = cfg.unary_suffix_operators := by
  unfold assign_append
  by_cases hge : precedence ≥ cfg.binary_op_precedence.length
  · rw [if_pos hge]
    exact ⟨hcnt, hin, rfl, rfl, rfl⟩
  · rw [if_neg hge]
    dsimp only
    have hplt : precedence < cfg.binary_op_precedence.length := by omega
    have hcard := fun x => count_flatten_set_append index x
      cfg.binary_op_precedence precedence hplt
    refine ⟨?_, ?_, rfl, rfl, rfl⟩
    · intro x
      rw [hcard x]
      by_cases hx : x = index
      · subst hx; rw [hcount0]; simp
      · rw [if_neg hx]
        have := hcnt x
        omega
    · intro x hx
      have hx2 : x ∈ (cfg.binary_op_precedence.set precedence (cfg.binary_op_precedence.getD precedence [] ++ [index])).flatten := hx
      have hpos : 1 ≤ List.count x (cfg.binary_op_precedence.set precedence (cfg.binary_op_precedence.getD precedence [] ++ [index])).flatten :=
        List.one_le_count_iff.mpr hx2
      rw [hcard x] at hpos
      show x < cfg.binary_operators.length
      by_cases hxi : x = index
      · subst hxi; exact hidx
      · rw [if_neg hxi] at hpos
        exact hin x (List.one_le_count_iff.mp (by omega))

/-- The row-insertion step of assign_precedence preserves the same
bookkeeping facts. -/
theorem assign_finish_facts (cfg : config) (index precedence : Nat)
    (ir : Bool)
    (hcount0 : cfg.binary_op_precedence.flatten.count index = 0)
    (hcnt : ∀ x, cfg.binary_op_precedence.flatten.count x ≤ 1)
    (hin : cfg.rows_in_range)
    (hidx : index < cfg.binary_operators.length) :
    (∀ x, (assign_finish cfg index precedence ir).1.binary_op_precedence.flatten.count x ≤ 1) ∧
    (assign_finish cfg index precedence ir).1.rows_in_range ∧
    (assign_finish cfg index precedence ir).1.binary_operators = cfg.binary_operators ∧
    (assign_finish cfg index precedence ir).1.unary_prefix_operators = cfg.unary_prefix_operators ∧
    (assign_finish cfg index precedence ir).1.unary_suffix_operators = cfg.unary_suffix_operators := by
  unfold assign_finish
  by_cases hir : ir = true
  · rw [if_pos hir]
    by_cases hgt : precedence > cfg.binary_op_precedence.length
    · rw [if_pos hgt]
      exact ⟨hcnt, hin, rfl, rfl, rfl⟩
    · rw [if_neg hgt]
      have hflat : (cfg.binary_op_precedence.insertIdx precedence
          ([] : List Nat)).flatten = cfg.binary_op_precedence.flatten :=
        flatten_insertIdx_nil cfg.binary_op_precedence precedence (by omega)
      exact assign_append_facts
        { cfg with binary_op_precedence :=
            cfg.binary_op_precedence.insertIdx precedence [] }
        index precedence
        (by show (cfg.binary_op_precedence.insertIdx precedence
              ([] : List Nat)).flatten.count index = 0
            rw [hflat]; exact hcount0)
        (by intro x
            show (cfg.binary_op_precedence.insertIdx precedence
              ([] : List Nat)).flatten.count x ≤ 1
            rw [hflat]; exact hcnt x)
        (by intro x hx
            have hx2 : x ∈ (cfg.binary_op_precedence.insertIdx precedence
                ([] : List Nat)).flatten := hx
            rw [hflat] at hx2
            exact hin x hx2)
        hidx
  · rw [if_neg hir]
    exact assign_append_facts cfg index precedence hcount0 hcnt hin hidx

/-- config::assign_precedence as a whole preserves the bookkeeping facts,
for every flag combination: entry counts stay at most one, entries stay in
range, and the three operator groups are untouched. -/
theorem assign_precedence_facts (cfg : config) (symbol : String)
    (precedence : Nat) (ir ov : Bool)
    (hcnt : ∀ x, cfg.binary_op_precedence.flatten.count x ≤ 1)
    (hin : cfg.rows_in_range) :
    (∀ x, (cfg.assign_precedence symbol precedence ir ov).1.binary_op_precedence.flatten.count x ≤ 1) ∧
    (cfg.assign_precedence symbol precedence ir ov).1.rows_in_range ∧
    (cfg.assign_precedence symbol precedence ir ov).1.binary_operators = cfg.binary_operators ∧
    (cfg.assign_precedence symbol precedence ir ov).1.unary_prefix_operators = cfg.unary_prefix_operators ∧
    (cfg.assign_precedence symbol precedence ir ov).1.unary_suffix_operators = cfg.unary_suffix_operators := by
  unfold config.assign_precedence
  split
  · exact ⟨hcnt, hin, rfl, rfl, rfl⟩
  · rename_i index hf
    have hidx : index < cfg.binary_operators.length := by
      have hb := findIdx?_some_bounds
        (p := fun op : binary_operator => op.symbol == symbol)
        (l := cfg.binary_operators) (i := 0) (j := index) hf
      omega
    split
    · rename_i he
      have h0 : index ∉ cfg.binary_op_precedence.flatten :=
        erase_row_entry_none index cfg.binary_op_precedence 0 he
      have hcount0 : cfg.binary_op_precedence.flatten.count index = 0 :=
        List.count_eq_zero.mpr h0
      exact assign_finish_facts cfg index precedence ir hcount0 hcnt hin hidx
    · rename_i rows2 removed he
      obtain ⟨hmem, hcount⟩ :=
        erase_row_entry_some index cfg.binary_op_precedence 0 rows2 removed he
      by_cases hov : ov = true
      · rw [if_pos hov]
        have hcntm : ∀ x, rows2.flatten.count x ≤ 1 := by
          intro x
          rw [hcount x]
          have := hcnt x
          omega
        have hcount0m : rows2.flatten.count index = 0 := by
          have h1 : 1 ≤ cfg.binary_op_precedence.flatten.count index :=
            List.one_le_count_iff.mpr hmem
          have h2 := hcnt index
          have h3 := hcount index
          rw [if_pos rfl] at h3
          omega
        have hinm : ∀ x ∈ rows2.flatten, x < cfg.binary_operators.length := by
          intro x hx
          have h1 : 1 ≤ rows2.flatten.count x := List.one_le_count_iff.mpr hx
          rw [hcount x] at h1
          exact hin x (List.one_le_count_iff.mp (by omega))
        cases removed with
        | none =>
          exact assign_finish_facts { cfg with binary_op_precedence := rows2 }
            index precedence ir hcount0m hcntm hinm hidx
        | some i =>
          exact assign_finish_facts { cfg with binary_op_precedence := rows2 }
            index (if i < precedence then precedence - 1 else precedence) ir
            hcount0m hcntm hinm hidx
      · rw [if_neg hov]
        exact ⟨hcnt, hin, rfl, rfl, rfl⟩

/-- A symbol absent from a unary group differs from every member symbol. -/
theorem find_unary_op_none_fresh {l : List unary_operator} {s : String}
    (h : find_unary_op l s = none) : ∀ x ∈ l, ¬ x.symbol = s := by
  intro x hx
  rw [find_unary_op, List.findIdx?_eq_none_iff] at h
  simpa using h x hx

/-- A symbol absent from the binary group differs from every member
symbol. -/
theorem find_bop_idx_none_fresh {l : List binary_operator} {s : String}
    (h : find_bop_idx l s = none) : ∀ x ∈ l, ¬ x.symbol = s := by
  intro x hx
  rw [find_bop_idx, List.findIdx?_eq_none_iff] at h
  simpa using h x hx

/-- C3: the claim that EVERY Config mutation preserves symbol uniqueness
per group, the at-most-one-row property, and that every precedence entry
still denotes the operator it denoted before. That holds for every
mutation EXCEPT remove_binary_op: adds and removes of operators keep the
per-group symbol lists duplicate-free, assign_precedence (including the
lowest-precedence overload) and unassign_precedence keep every table entry
unique and in range and leave the operator lists untouched (so every entry
keeps its denotation), but remove_binary_op (fluxins.cpp lines 217-226)
erases the operator without re-indexing or cleaning the precedence table,
so surviving entries shift their denotation — the refutation is the
separate counterexample theorem. This amended statement carves that case
out with the is_remove_binary guard. -/
theorem c3_mutations_preserve_invariants (m : config_mutation) (cfg : config)
    (hu : cfg.groups_nodup) (hr : cfg.rows_nodup) (hin : cfg.rows_in_range) :
    (apply_config_mutation m cfg).1.groups_nodup ∧
    (apply_config_mutation m cfg).1.rows_nodup ∧
    (m.is_remove_binary = false →
      (apply_config_mutation m cfg).1.rows_in_range ∧
      ∀ idx ∈ (apply_config_mutation m cfg).1.binary_op_precedence.flatten,
        (apply_config_mutation m cfg).1.denotes idx = cfg.denotes idx) := by
  obtain ⟨hu1, hu2, hu3⟩ := hu
  cases m with
  | add_prefix_op op =>
    simp only [apply_config_mutation]
    unfold config.add_unary_prefix_op
    by_cases hex : cfg.unary_prefix_op_exists op.symbol = true
    · rw [if_pos hex]
      exact ⟨⟨hu1, hu2, hu3⟩, hr, fun _ => ⟨hin, fun idx _ => rfl⟩⟩
    · rw [if_neg hex]
      refine ⟨⟨?_, hu2, hu3⟩, hr, fun _ => ⟨hin, fun idx _ => rfl⟩⟩
      have hnone : find_unary_op cfg.unary_prefix_operators op.symbol = none := by
        unfold config.unary_prefix_op_exists at hex
        cases hfind : find_unary_op cfg.unary_prefix_operators op.symbol with
        | none => rfl
        | some i => rw [hfind] at hex; simp at hex
      exact nodup_map_append_singleton hu1 (find_unary_op_none_fresh hnone)
  | remove_prefix_op symbol =>
    simp only [apply_config_mutation]
    unfold config.remove_unary_prefix_op
    split
    · exact ⟨⟨hu1, hu2, hu3⟩, hr, fun _ => ⟨hin, fun idx _ => rfl⟩⟩
    · exact ⟨⟨nodup_map_eraseIdx _ _ _ hu1, hu2, hu3⟩, hr,
        fun _ => ⟨hin, fun idx _ => rfl⟩⟩
  | add_suffix op =>
    simp only [apply_config_mutation]
    unfold config.add_unary_suffix_op
    by_cases hex : cfg.unary_suffix_op_exists op.symbol = true
    · rw [if_pos hex]
      exact ⟨⟨hu1, hu2, hu3⟩, hr, fun _ => ⟨hin, fun idx _ => rfl⟩⟩
    · rw [if_neg hex]
      refine ⟨⟨hu1, ?_, hu3⟩, hr, fun _ => ⟨hin, fun idx _ => rfl⟩⟩
      have hnone : find_unary_op cfg.unary_suffix_operators op.symbol = none := by
        unfold config.unary_suffix_op_exists at hex
        cases hfind : find_unary_op cfg.unary_suffix_operators op.symbol with
        | none => rfl
        | some i => rw [hfind] at hex; simp at hex
      exact nodup_map_append_singleton hu2 (find_unary_op_none_fresh hnone)
  | remove_suffix symbol =>
    simp only [apply_config_mutation]
    unfold config.remove_unary_suffix_op
    split
    · exact ⟨⟨hu1, hu2, hu3⟩, hr, fun _ => ⟨hin, fun idx _ => rfl⟩⟩
    · exact ⟨⟨hu1, nodup_map_eraseIdx _ _ _ hu2, hu3⟩, hr,
        fun _ => ⟨hin, fun idx _ => rfl⟩⟩
  | add_binary op =>
    simp only [apply_config_mutation]
    unfold config.add_binary_op
    by_cases hex : cfg.binary_op_exists op.symbol = true
    · rw [if_pos hex]
      exact ⟨⟨hu1, hu2, hu3⟩, hr, fun _ => ⟨hin, fun idx _ => rfl⟩⟩
    · rw [if_neg hex]
      by_cases hassoc : (op.assoc == associativity.max) = true
      · rw [if_pos hassoc]
        exact ⟨⟨hu1, hu2, hu3⟩, hr, fun _ => ⟨hin, fun idx _ => rfl⟩⟩
      · rw [if_neg hassoc]
        have hnone : find_bop_idx cfg.binary_operators op.symbol = none := by
          unfold config.binary_op_exists at hex
          cases hfind : find_bop_idx cfg.binary_operators op.symbol with
          | none => rfl
          | some i => rw [hfind] at hex; simp at hex
        refine ⟨⟨hu1, hu2,
          nodup_map_append_singleton hu3 (find_bop_idx_none_fresh hnone)⟩,
          hr, fun _ => ⟨?_, ?_⟩⟩
        · intro idx hmem
          have := hin idx hmem
          show idx < (cfg.binary_operators ++ [op]).length
          rw [List.length_append]
          omega
        · intro idx hmem
          have hlt := hin idx hmem
          show ((cfg.binary_operators ++ [op]).get? idx).map
              (fun op2 => op2.symbol) =
            (cfg.binary_operators.get? idx).map (fun op2 => op2.symbol)
          rw [List.get?_append hlt]
  | remove_binary symbol =>
    simp only [apply_config_mutation]
    unfold config.remove_binary_op
    split
    · exact ⟨⟨hu1, hu2, hu3⟩, hr, fun _ => ⟨hin, fun idx _ => rfl⟩⟩
    · refine ⟨⟨hu1, hu2, nodup_map_eraseIdx _ _ _ hu3⟩, hr, fun hfalse => ?_⟩
      simp [config_mutation.is_remove_binary] at hfalse
  | assign symbol precedence insert_row ov =>
    obtain ⟨hcnt2, hin2, hb, hp, hs⟩ :=
      assign_precedence_facts cfg symbol precedence insert_row ov
        (fun x => List.nodup_iff_count_le_one.mp hr x) hin
    refine ⟨?_, List.nodup_iff_count_le_one.mpr hcnt2,
      fun _ => ⟨hin2, fun idx _ => ?_⟩⟩
    · show (cfg.assign_precedence symbol precedence insert_row ov).1.groups_nodup
      unfold config.groups_nodup
      rw [hb, hp, hs]
      exact ⟨hu1, hu2, hu3⟩
    · show (cfg.assign_precedence symbol precedence insert_row ov).1.denotes idx =
        cfg.denotes idx
      unfold config.denotes
      rw [hb]
  | assign_lowest symbol insert_row ov =>
    obtain ⟨hcnt2, hin2, hb, hp, hs⟩ :=
      assign_precedence_facts cfg symbol
        (cfg.binary_op_precedence.length - (if insert_row then 0 else 1))
        insert_row ov
        (fun x => List.nodup_iff_count_le_one.mp hr x) hin
    refine ⟨?_, List.nodup_iff_count_le_one.mpr hcnt2,
      fun _ => ⟨hin2, fun idx _ => ?_⟩⟩
    · show (cfg.assign_precedence_lowest symbol insert_row ov).1.groups_nodup
      unfold config.groups_nodup config.assign_precedence_lowest
      rw [hb, hp, hs]
      exact ⟨hu1, hu2, hu3⟩
    · show (cfg.assign_precedence_lowest symbol insert_row ov).1.denotes idx =
        cfg.denotes idx
      unfold config.denotes config.assign_precedence_lowest
      rw [hb]
  | unassign symbol =>
    simp only [apply_config_mutation]
    unfold config.unassign_precedence
    split
    · exact ⟨⟨hu1, hu2, hu3⟩, hr, fun _ => ⟨hin, fun idx _ => rfl⟩⟩
    · rename_i index hf
      split
      · exact ⟨⟨hu1, hu2, hu3⟩, hr, fun _ => ⟨hin, fun idx _ => rfl⟩⟩
      · rename_i rows2 removed he
        obtain ⟨hmem, hcount⟩ :=
          erase_row_entry_some index cfg.binary_op_precedence 0 rows2 removed he
        refine ⟨⟨hu1, hu2, hu3⟩, ?_, fun _ => ⟨?_, fun idx _ => rfl⟩⟩
        · apply List.nodup_iff_count_le_one.mpr
          intro x
          show rows2.flatten.count x ≤ 1
          rw [hcount x]
          have := List.nodup_iff_count_le_one.mp hr x
          omega
        · intro x hx
          have hx2 : x ∈ rows2.flatten := hx
          have h1 : 1 ≤ rows2.flatten.count x := List.one_le_count_iff.mpr hx2
          rw [hcount x] at h1
          show x < cfg.binary_operators.length
          exact hin x (List.one_le_count_iff.mp (by omega))

/-- Concrete run of the mutation-preservation theorem: unassigning the
precedence of the and-operator in the boolean fixture keeps every
invariant and every entry denotation. -/
theorem c3_mutations_preserve_invariants_witness :
    cfg_bool.groups_nodup ∧ cfg_bool.rows_nodup ∧ cfg_bool.rows_in_range ∧
    ((apply_config_mutation (config_mutation.unassign "&&") cfg_bool).1.groups_nodup ∧
     (apply_config_mutation (config_mutation.unassign "&&") cfg_bool).1.rows_nodup ∧
     ((config_mutation.unassign "&&").is_remove_binary = false →
       (apply_config_mutation (config_mutation.unassign "&&") cfg_bool).1.rows_in_range ∧
       ∀ idx ∈ (apply_config_mutation (config_mutation.unassign "&&") cfg_bool).1.binary_op_precedence.flatten,
         (apply_config_mutation (config_mutation.unassign "&&") cfg_bool).1.denotes idx = cfg_bool.denotes idx)) :=
  ⟨by decide, by decide, by decide,
    c3_mutations_preserve_invariants (config_mutation.unassign "&&") cfg_bool
      (by decide) (by decide) (by decide)⟩

end Fluxins
